import Mathlib

/-!
Verification of the pytreesvg library (`pytreesvg/node_svg.py`,
`pytreesvg/utils/tools.py`).

The Python code is shallowly embedded: strings are `String` / `List Char`,
Python `int` is `Int`, Python `float` coordinates are modelled exactly as `ℚ`
(the layout arithmetic consists of `+`, `-`, `*`, `/` only), raising
`ValueError` / `TypeError` is modelled with `Except` values, and in-place
mutation of a node is modelled by returning the updated tree.  The `ℚ`
model is exact arithmetic: IEEE-754 double rounding and underflow of the
source's floats are not modelled, so properties whose truth depends on
rounding or underflow of the layout arithmetic are outside the scope of
this development.

Part 1 below embeds the style model (`NodeStyle`): the `<color>@<size>`
token parser of `NodeStyle.__init__`, the color grammar of
`NodeStyle._get_valid_color`, the size check of `NodeStyle._get_valid_size`,
the canonical form `NodeStyle.__str__` and the id derivation
`NodeStyle.get_color_id`.
-/

/-- `[0-9]` character class (spelled out as the ten member characters). -/
def isPyDigit (c : Char) : Bool :=
  c ∈ ['0', '1', '2', '3', '4', '5', '6', '7', '8', '9']

/-- ASCII instances of the `\s` character class of Python's `re` module. -/
def isPySpace (c : Char) : Bool :=
  c = ' ' || c = '\t' || c = '\n' || c = '\x0b' || c = '\x0c' || c = '\r'

/-- Whether the regex `^.+@[0-9]+$` of `NodeStyle.__init__` matches with the
`[0-9]+` run ending exactly at the end of `cs`.  A match exists iff the
maximal digit suffix is nonempty, is preceded by `'@'`, and the part before
that `'@'` is nonempty and newline-free (`.` does not match `'\n'`). -/
def matchFormatCore (cs : List Char) : Bool :=
  match cs.reverse.dropWhile isPyDigit with
  | [] => false
  | a :: xs =>
    !(cs.reverse.takeWhile isPyDigit).isEmpty && a = '@' && !xs.isEmpty &&
      !xs.contains '\n'

/-- `re.search(r'^.+@[0-9]+$', cs)`: Python's `$` matches at the end of the
string or just before a single trailing newline. -/
def formatOk (cs : List Char) : Bool :=
  matchFormatCore cs ||
    (cs.getLast? = some '\n' && matchFormatCore cs.dropLast)

/-- `re.split(r'@', ·)`: split at every `'@'`, keeping empty pieces. -/
def splitOnAt : List Char → List (List Char)
  | [] => [[]]
  | c :: cs =>
    if c = '@' then [] :: splitOnAt cs
    else
      match splitOnAt cs with
      | [] => [[c]]
      | p :: ps => (c :: p) :: ps

/-- `[s for s in re.split(r'@', representation) if s != '']`. -/
def chuncksOf (cs : List Char) : List (List Char) :=
  (splitOnAt cs).filter (fun p => !p.isEmpty)

/-- The fixed keyword list `base_color_list` of `NodeStyle._get_valid_color`. -/
def base_color_list : List String := [
  "aliceblue", "antiquewhite", "aqua", "aquamarine", "azure",
  "beige", "bisque", "black", "blanchedalmond", "blue",
  "blueviolet", "brown", "burlywood", "cadetblue", "chartreuse",
  "chocolate", "coral", "cornflowerblue", "cornsilk", "crimson",
  "cyan", "darkblue", "darkcyan", "darkgoldenrod", "darkgray",
  "darkgreen", "darkgrey", "darkkhaki", "darkmagenta",
  "darkolivegreen", "darkorange", "darkorchid", "darkred",
  "darksalmon", "darkseagreen", "darkslateblue", "darkslategray",
  "darkslategrey", "darkturquoise",
  "darkviolet", "deeppink", "deepskyblue", "dimgray", "dimgrey",
  "dodgerblue", "firebrick", "floralwhite",
  "forestgreen", "fuchsia", "gainsboro", "ghostwhite", "gold",
  "goldenrod", "gray", "grey", "green",
  "greenyellow", "honeydew", "hotpink", "indianred", "indigo",
  "ivory", "khaki", "lavender", "lavenderblush",
  "lawngreen", "lemonchiffon", "lightblue", "lightcoral", "lightcyan",
  "lightgoldenrodyellow", "lightgray",
  "lightgreen", "lightgrey", "lightpink", "lightsalmon",
  "lightseagreen", "lightskyblue", "lightslategray",
  "lightslategrey", "lightsteelblue", "lightyellow", "lime",
  "limegreen", "linen", "magenta", "maroon",
  "mediumaquamarine", "mediumblue", "mediumorchid", "mediumpurple",
  "mediumseagreen", "mediumslateblue",
  "mediumspringgreen", "mediumturquoise", "mediumvioletred",
  "midnightblue", "mintcream", "mistyrose",
  "moccasin", "navajowhite", "navy", "oldlace", "olive", "olivedrab",
  "orange", "orangered", "orchid",
  "palegoldenrod", "palegreen", "paleturquoise", "palevioletred",
  "papayawhip", "peachpuff", "peru", "pink",
  "plum", "powderblue", "purple", "red", "rosybrown", "royalblue",
  "saddlebrown", "salmon", "sandybrown",
  "seagreen", "seashell", "sienna", "silver", "skyblue", "slateblue",
  "slategray", "slategrey", "snow",
  "springgreen", "steelblue", "tan", "teal", "thistle", "tomato",
  "turquoise", "violet", "wheat", "white",
  "whitesmoke", "yellow", "yellowgreen"]

/-- `[a-f0-9]` with `re.IGNORECASE`. -/
def isHexChar (c : Char) : Bool :=
  isPyDigit c || ('a' ≤ c && c ≤ 'f') || ('A' ≤ c && c ≤ 'F')

/-- `re.search(r'^#([a-f0-9]{3}){1,2}$', ·, re.IGNORECASE)`: a `'#'` followed
by exactly 3 or 6 hex digits; `$` also matches before one trailing newline. -/
def hexadec_notation_ok (cs : List Char) : Bool :=
  match cs with
  | '#' :: rest =>
    let body := if rest.getLast? = some '\n' then rest.dropLast else rest
    (body.length = 3 || body.length = 6) && body.all isHexChar &&
      (rest.length = body.length || rest.length = body.length + 1)
  | _ => false

/-- Consume at most one `\s` (the regex `\s?`, deterministic here because in
every use the following required character is never a space). -/
def optSpace : List Char → List Char
  | [] => []
  | c :: cs => if isPySpace c then cs else c :: cs

/-- Consume `[0-9]{1,3}` greedily; deterministic because the regex never
allows a digit immediately after this group. -/
def take13Digits : List Char → Option (List Char)
  | [] => none
  | c :: cs =>
    if isPyDigit c then
      match cs with
      | [] => some []
      | d :: cs' =>
        if isPyDigit d then
          match cs' with
          | [] => some []
          | e :: cs'' => if isPyDigit e then some cs'' else some (e :: cs'')
        else some (d :: cs')
    else none

def expectChar (c : Char) : List Char → Option (List Char)
  | [] => none
  | x :: xs => if x = c then some xs else none

/-- `rgb` case-insensitively, then `'('`. -/
def rgbOpen : List Char → Option (List Char)
  | a :: b :: c :: d :: rest =>
    if a.toLower = 'r' && b.toLower = 'g' && c.toLower = 'b' && d = '(' then
      some rest
    else none
  | _ => none

/-- The group `\s?[0-9]{1,3}\s?` of the rgb value notation. -/
def rgbValGroup (cs : List Char) : Option (List Char) :=
  match take13Digits (optSpace cs) with
  | none => none
  | some rest => some (optSpace rest)

/-- `re.search(r'^rgb\(\s?[0-9]{1,3}\s?(,\s?[0-9]{1,3}\s?){2}\)', ·,
re.IGNORECASE)`: note the missing `$`, trailing content is accepted. -/
def rgb_notation_val_ok (cs : List Char) : Bool :=
  (do
    let r1 ← rgbOpen cs
    let r2 ← rgbValGroup r1
    let r3 ← expectChar ',' r2
    let r4 ← rgbValGroup r3
    let r5 ← expectChar ',' r4
    let r6 ← rgbValGroup r5
    expectChar ')' r6).isSome

/-- The group `\s?[0-9]{1,3}\s?%\s?` of the rgb percentage notation. -/
def rgbPerGroup (cs : List Char) : Option (List Char) :=
  match take13Digits (optSpace cs) with
  | none => none
  | some rest =>
    match expectChar '%' (optSpace rest) with
    | none => none
    | some r => some (optSpace r)

/-- `re.search(r'^rgb\(\s?[0-9]{1,3}\s?%\s?(,\s?[0-9]{1,3}\s?%\s?){2}\)$', ·,
re.IGNORECASE)`: anchored, so nothing may follow the `')'` except the single
trailing newline tolerated by `$`. -/
def rgb_notation_per_ok (cs : List Char) : Bool :=
  match (do
    let r1 ← rgbOpen cs
    let r2 ← rgbPerGroup r1
    let r3 ← expectChar ',' r2
    let r4 ← rgbPerGroup r3
    let r5 ← expectChar ',' r4
    let r6 ← rgbPerGroup r5
    expectChar ')' r6) with
  | some rest => rest.isEmpty || rest = ['\n']
  | none => false

/-- The acceptance test of `NodeStyle._get_valid_color`: keyword, hex
notation, rgb value notation or rgb percentage notation. -/
def colorOk (cs : List Char) : Bool :=
  base_color_list.contains (String.mk cs) || hexadec_notation_ok cs ||
    rgb_notation_val_ok cs || rgb_notation_per_ok cs

/-- Python `int(str)`: digits of the stripped, unsigned part, allowing a
single `'_'` between two digits. -/
def pyDigitsLoop : List Char → Nat → Option Nat
  | [], acc => some acc
  | '_' :: rest, acc =>
    match rest with
    | [] => none
    | d :: rest' =>
      if isPyDigit d then pyDigitsLoop rest' (acc * 10 + (d.toNat - '0'.toNat))
      else none
  | c :: rest, acc =>
    if isPyDigit c then pyDigitsLoop rest (acc * 10 + (c.toNat - '0'.toNat))
    else none

def pyIntDigits : List Char → Option Nat
  | [] => none
  | c :: rest =>
    if isPyDigit c then pyDigitsLoop rest (c.toNat - '0'.toNat) else none

/-- Python `int(·)` on a string: strip surrounding whitespace, optional
sign, then digits (with `'_'` group separators); `none` models the
`ValueError: invalid literal for int()`. -/
def pyInt (cs : List Char) : Option Int :=
  let t := (cs.dropWhile isPySpace).reverse.dropWhile isPySpace |>.reverse
  match t with
  | '+' :: rest => (pyIntDigits rest).map Int.ofNat
  | '-' :: rest => (pyIntDigits rest).map (fun n => -(Int.ofNat n))
  | rest => (pyIntDigits rest).map Int.ofNat

/-- The distinct `ValueError` outcomes of `NodeStyle.__init__`:
`formatError` (representation regex), `colorError` (`_get_valid_color`),
`sizeError` (`_get_valid_size` range check), `intError` (the `int(size)`
conversion inside `_get_valid_size`), and `indexError` for the
(unreachable, see `parseStyle_no_indexError`) `chuncks[1]` access. -/
inductive StyleError where
  | formatError | colorError | sizeError | intError | indexError
deriving DecidableEq

/-- The two validated attributes of a `NodeStyle`. -/
structure NodeStyle where
  color : String
  size : Int
deriving DecidableEq

/-- `NodeStyle.__init__`: format check, split on `'@'` dropping empty
pieces, then `_get_valid_color(chuncks[0])` and
`_get_valid_size(chuncks[1])`, in this order. -/
def parseStyle (r : String) : Except StyleError NodeStyle :=
  if !formatOk r.data then .error .formatError
  else
    match chuncksOf r.data with
    | [] => .error .indexError
    | [c0] => if colorOk c0 then .error .indexError else .error .colorError
    | c0 :: c1 :: _ =>
      if !colorOk c0 then .error .colorError
      else
        match pyInt c1 with
        | none => .error .intError
        | some n =>
          if n < 0 || n > 100 then .error .sizeError
          else .ok ⟨String.mk c0, n⟩

/-- Python `str` of a nonnegative integer (digit list), via fuel-based
division so it evaluates by kernel reduction. -/
def natDigitsAux : Nat → Nat → List Char
  | 0, _ => []
  | fuel + 1, n =>
    if n < 10 then [Char.ofNat ('0'.toNat + n)]
    else natDigitsAux fuel (n / 10) ++ [Char.ofNat ('0'.toNat + n % 10)]

def natRepr (n : Nat) : List Char := natDigitsAux (n + 1) n

/-- Python `str(i)` for `i : int`. -/
def intRepr (i : Int) : List Char :=
  if i < 0 then '-' :: natRepr (-i).toNat else natRepr i.toNat

/-- `NodeStyle.__str__`: `f'{self.color}@{self.size}'`. -/
def styleStr (st : NodeStyle) : String :=
  st.color ++ "@" ++ String.mk (intRepr st.size)

/-- `NodeStyle.get_color_id`: drop `'#'`, `')'` and whitespace, replace
`'('` and `','` by `'.'`, replace `'%'` by `'p'`. -/
def get_color_id (color : String) : String :=
  let s1 := color.data.filter (fun c => !(c = '#' || c = ')' || isPySpace c))
  let s2 := s1.map (fun c => if c = '(' || c = ',' then '.' else c)
  String.mk (s2.map (fun c => if c = '%' then 'p' else c))

/-!
Part 2: the tree model (`NodeSVG`), the linear interpolation primitive
(`map_value` from `pytreesvg/utils/tools.py`), the two layout passes
(`_recursively_compute_y_position`, `_recursively_compute_x_position`),
the gradient definitions pass (`_recursively_get_svg_gradient_color_defs`),
the drawing traversal (`_recursively_get_svg_representation`) and `to_svg`.

Coordinates are modelled in `ℚ`; raising is modelled by `Except`-valued
variants (suffix `E`), and the in-place mutations of `self.x`, `self.y` and
`self.svg_gradient` are modelled by returning the updated tree.
-/

/-- The `ValueError` of `map_value` on a collapsed interval. -/
inductive LayoutError where
  | degenerateInterval
deriving DecidableEq

/-- `map_value(x, a, b, c, d)` from `pytreesvg/utils/tools.py`, the
non-raising branch: `(x - a) / (b - a) * (d - c) + c`. -/
def map_value (x a b c d : ℚ) : ℚ := (x - a) / (b - a) * (d - c) + c

/-- `map_value` with its `ValueError` on `a == b or c == d`. -/
def map_valueE (x a b c d : ℚ) : Except LayoutError ℚ :=
  if a = b ∨ c = d then .error .degenerateInterval
  else .ok ((x - a) / (b - a) * (d - c) + c)

/-- A `NodeSVG` object: a value (modelled by its display string — the
payload is opaque, never interpreted by layout or rendering), an ordered
list of children, a style, the mutable coordinates `x`, `y` (initially `0`),
and the `svg_gradient` attribute that Python code may set on the instance
(`none` models its absence on a freshly constructed node). -/
inductive NodeSVG where
  | mk (value : String) (children : List NodeSVG) (style : NodeStyle)
      (x y : ℚ) (svg_gradient : Option String)

def NodeSVG.value : NodeSVG → String
  | .mk v _ _ _ _ _ => v

def NodeSVG.children : NodeSVG → List NodeSVG
  | .mk _ cs _ _ _ _ => cs

def NodeSVG.style : NodeSVG → NodeStyle
  | .mk _ _ st _ _ _ => st

def NodeSVG.x : NodeSVG → ℚ
  | .mk _ _ _ x _ _ => x

def NodeSVG.y : NodeSVG → ℚ
  | .mk _ _ _ _ y _ => y

def NodeSVG.svg_gradient : NodeSVG → Option String
  | .mk _ _ _ _ _ g => g

/-- `NodeSVG.is_leaf`: `not self.children`. -/
def is_leaf (n : NodeSVG) : Bool := n.children.isEmpty

/-- Python `max` over a nonempty list of ints (`[]` never occurs). -/
def listMax : List Int → Int
  | [] => 0
  | x :: xs => xs.foldl max x

mutual
/-- `NodeSVG.get_depth(current_node_depth)`. -/
def get_depth (n : NodeSVG) (current_node_depth : Int) : Int :=
  match n with
  | .mk _ cs _ _ _ _ =>
    if cs.isEmpty then current_node_depth
    else listMax (get_depthList cs (current_node_depth + 1))

/-- `[child.get_depth(current_node_depth + 1) for child in self.children]`. -/
def get_depthList (cs : List NodeSVG) (d : Int) : List Int :=
  match cs with
  | [] => []
  | c :: rest => get_depth c d :: get_depthList rest d
end

/-- The effective `tree_depth` used by `_recursively_compute_y_position`:
`if not tree_depth: tree_depth = self.get_depth()` — Python falsiness, so
both `None` and `0` trigger the recomputation. -/
def effTreeDepth (n : NodeSVG) (tree_depth : Option Int) : Int :=
  match tree_depth with
  | none => get_depth n 0
  | some t => if t = 0 then get_depth n 0 else t

mutual
/-- `NodeSVG._recursively_compute_y_position(svg_height,
current_node_depth, tree_depth)`, non-raising branch. -/
def computeY (n : NodeSVG) (svg_height : ℚ) (current_node_depth : Int)
    (tree_depth : Option Int) : NodeSVG :=
  let td := effTreeDepth n tree_depth
  match n with
  | .mk v cs st x _ g =>
    .mk v (computeYList cs svg_height (current_node_depth + 1) (some td)) st
      x (map_value (current_node_depth : ℚ) (-(1/2)) ((td : ℚ) + 1/2) 0 svg_height) g

def computeYList (cs : List NodeSVG) (svg_height : ℚ) (d : Int)
    (tree_depth : Option Int) : List NodeSVG :=
  match cs with
  | [] => []
  | c :: rest =>
    computeY c svg_height d tree_depth :: computeYList rest svg_height d tree_depth
end

mutual
/-- `_recursively_compute_y_position` with the `ValueError` of `map_value`. -/
def computeYE (n : NodeSVG) (svg_height : ℚ) (current_node_depth : Int)
    (tree_depth : Option Int) : Except LayoutError NodeSVG :=
  let td := effTreeDepth n tree_depth
  match n with
  | .mk v cs st x _ g =>
    match map_valueE (current_node_depth : ℚ) (-(1/2)) ((td : ℚ) + 1/2) 0 svg_height with
    | .error e => .error e
    | .ok y' =>
      match computeYListE cs svg_height (current_node_depth + 1) (some td) with
      | .error e => .error e
      | .ok cs' => .ok (.mk v cs' st x y' g)

def computeYListE (cs : List NodeSVG) (svg_height : ℚ) (d : Int)
    (tree_depth : Option Int) : Except LayoutError (List NodeSVG) :=
  match cs with
  | [] => .ok []
  | c :: rest =>
    match computeYE c svg_height d tree_depth with
    | .error e => .error e
    | .ok c' =>
      match computeYListE rest svg_height d tree_depth with
      | .error e => .error e
      | .ok rest' => .ok (c' :: rest')
end

mutual
/-- `NodeSVG._recursively_compute_x_position(parent_svg_width,
level_svg_offset, current_node_index, nb_node_current_level)`, non-raising
branch. -/
def computeX (n : NodeSVG) (parent_svg_width level_svg_offset : ℚ)
    (current_node_index : Int) (nb_node_current_level : Nat) : NodeSVG :=
  match n with
  | .mk v cs st _ y g =>
    let x' := level_svg_offset +
      map_value (current_node_index : ℚ) (-(1/2))
        ((nb_node_current_level : ℚ) - 1/2) 0 parent_svg_width
    let new_parent_svg_width := parent_svg_width / (nb_node_current_level : ℚ)
    let new_level_svg_offset := level_svg_offset +
      map_value ((current_node_index : ℚ) - 1) (-1)
        ((nb_node_current_level : ℚ) - 1) 0 parent_svg_width
    .mk v (computeXList cs new_parent_svg_width new_level_svg_offset 0 cs.length)
      st x' y g

/-- `for i, child in enumerate(self.children): child._recursively_compute_x_position(...)`. -/
def computeXList (cs : List NodeSVG) (w off : ℚ) (i : Int) (nb : Nat) :
    List NodeSVG :=
  match cs with
  | [] => []
  | c :: rest => computeX c w off i nb :: computeXList rest w off (i + 1) nb
end

mutual
/-- `_recursively_compute_x_position` with the `ValueError` of `map_value`. -/
def computeXE (n : NodeSVG) (parent_svg_width level_svg_offset : ℚ)
    (current_node_index : Int) (nb_node_current_level : Nat) :
    Except LayoutError NodeSVG :=
  match n with
  | .mk v cs st _ y g =>
    match map_valueE (current_node_index : ℚ) (-(1/2))
        ((nb_node_current_level : ℚ) - 1/2) 0 parent_svg_width with
    | .error e => .error e
    | .ok mx =>
      let new_parent_svg_width := parent_svg_width / (nb_node_current_level : ℚ)
      match map_valueE ((current_node_index : ℚ) - 1) (-1)
          ((nb_node_current_level : ℚ) - 1) 0 parent_svg_width with
      | .error e => .error e
      | .ok moff =>
        match computeXListE cs new_parent_svg_width (level_svg_offset + moff)
            0 cs.length with
        | .error e => .error e
        | .ok cs' => .ok (.mk v cs' st (level_svg_offset + mx) y g)

def computeXListE (cs : List NodeSVG) (w off : ℚ) (i : Int) (nb : Nat) :
    Except LayoutError (List NodeSVG) :=
  match cs with
  | [] => .ok []
  | c :: rest =>
    match computeXE c w off i nb with
    | .error e => .error e
    | .ok c' =>
      match computeXListE rest w off (i + 1) nb with
      | .error e => .error e
      | .ok rest' => .ok (c' :: rest')
end

/-- The gradient id `f'grad_{parent.get_color_id()}_{child.get_color_id()}'`,
built identically by the definitions pass and the drawing traversal. -/
def gradientId (parent child : NodeStyle) : String :=
  "grad_" ++ get_color_id parent.color ++ "_" ++ get_color_id child.color

/-- The `<linearGradient>` block emitted for one gradient id. -/
def linearGradientDef (gid parent_color child_color : String) : String :=
  "        <linearGradient id=\"" ++ gid ++
    "\" x1=\"0%\" x2=\"0%\" y1=\"0%\" y2=\"100%\">\n" ++
    "           <stop offset=\"0%\" stop-color=\"" ++ parent_color ++ "\"/>\n" ++
    "           <stop offset=\"100%\" stop-color=\"" ++ child_color ++ "\"/>\n" ++
    "        </linearGradient>\n"

mutual
/-- `NodeSVG._recursively_get_svg_gradient_color_defs(created_gradient_list)`:
returns the updated tree (the pass stores `self.svg_gradient` on every node
it visits), the definitions string, and the final
`created_gradient_list`.  Note that the recursion into a child happens only
inside the `if` (only when a new gradient was just emitted for that edge). -/
def gradientDefs (n : NodeSVG) (created_gradient_list : List String) :
    NodeSVG × String × List String :=
  -- `if not created_gradient_list: created_gradient_list = []` (a no-op on values)
  let created := if created_gradient_list.isEmpty then [] else created_gradient_list
  match n with
  | .mk v cs st x y _ =>
    let r := gradientDefsLoop st cs created
    (.mk v r.1 st x y (some r.2.1), r.2.1, r.2.2)

/-- The `for child in self.children` loop of the definitions pass,
threading `self.svg_gradient` and `created_gradient_list`. -/
def gradientDefsLoop (st : NodeStyle) (cs : List NodeSVG)
    (created : List String) : List NodeSVG × String × List String :=
  match cs with
  | [] => ([], "", created)
  | c :: rest =>
    let gid := gradientId st c.style
    if st.color ≠ c.style.color ∧ gid ∉ created then
      let defStr := linearGradientDef gid st.color c.style.color
      let rc := gradientDefs c (created ++ [gid])
      let rr := gradientDefsLoop st rest rc.2.2
      (rc.1 :: rr.1, defStr ++ rc.2.1 ++ rr.2.1, rr.2.2)
    else
      let rr := gradientDefsLoop st rest created
      (c :: rr.1, rr.2.1, rr.2.2)
end

/-- One `<line>` element of the drawing traversal. -/
def edgeLine (ind : String) (x1 y1 x2 y2 : ℚ) (color child_value : String) :
    String :=
  ind ++ "<line x1=\"" ++ toString x1 ++ "\" y1=\"" ++ toString y1 ++
    "\" x2=\"" ++ toString x2 ++ "\" y2=\"" ++ toString y2 ++
    "\" stroke=\"" ++ color ++ "\" stroke-width=\"2\"/> <!-- edge to node " ++
    child_value ++ " -->\n"

/-- The stroke chosen for the edge to one child in
`_recursively_get_svg_representation`: the flat parent color when the two
endpoint colors coincide, otherwise a `url(#...)` reference built with
`gradientId`; flat black when `gradient_color` is off. -/
def edgeStroke (st : NodeStyle) (child_style : NodeStyle)
    (gradient_color : Bool) : String :=
  if gradient_color then
    if st.color = child_style.color then st.color
    else "url(#" ++ gradientId st child_style ++ ")"
  else "black"

/-- The `for child in self.children` edge-drawing loop. -/
def svgEdgesLoop (st : NodeStyle) (sx sy : ℚ) (gradient_color : Bool)
    (ind : String) : List NodeSVG → String
  | [] => ""
  | c :: rest =>
    edgeLine ind sx sy c.x c.y (edgeStroke st c.style gradient_color) c.value ++
      svgEdgesLoop st sx sy gradient_color ind rest

mutual
/-- `NodeSVG._recursively_get_svg_representation(gradient_color,
indentation)` (numeric formatting of the coordinates is abstracted by
`toString` on `ℚ`). -/
def svgRepresentation (n : NodeSVG) (gradient_color : Bool)
    (indentation : String) : String :=
  match n with
  | .mk v cs st x y _ =>
    (indentation ++ "<!-- Node " ++ v ++ " -->\n") ++
      svgEdgesLoop st x y gradient_color indentation cs ++
      (indentation ++ "<circle cx=\"" ++ toString x ++ "\" cy=\"" ++
        toString y ++ "\" r=\"" ++ toString st.size ++ "\" fill=\"" ++
        st.color ++ "\"/>\n\n") ++
      svgRepresentationList cs gradient_color (indentation ++ "    ")

def svgRepresentationList (cs : List NodeSVG) (gradient_color : Bool)
    (indentation : String) : String :=
  match cs with
  | [] => ""
  | c :: rest =>
    svgRepresentation c gradient_color indentation ++
      svgRepresentationList rest gradient_color indentation
end

/-- The gradient ids referenced through `url(#...)` by the edges of
`_recursively_get_svg_representation` when `gradient_color` is true: one id
per parent-child edge whose endpoint colors differ (the drawing traversal
recurses into every child unconditionally). -/
def edgeRefIds (st : NodeStyle) : List NodeSVG → List String
  | [] => []
  | c :: rest =>
    (if st.color = c.style.color then [] else [gradientId st c.style]) ++
      edgeRefIds st rest

mutual
def referencedGradientIds (n : NodeSVG) : List String :=
  match n with
  | .mk _ cs st _ _ _ => edgeRefIds st cs ++ referencedGradientIdsList cs

def referencedGradientIdsList : List NodeSVG → List String
  | [] => []
  | c :: rest => referencedGradientIds c ++ referencedGradientIdsList rest
end

/-- The errors `NodeSVG.to_svg` can surface: its own `ValueError` on the
dimensions, or the (unreachable) `ValueError` of `map_value` from the two
layout passes it triggers. -/
inductive RenderError where
  | dimensionError | degenerateInterval
deriving DecidableEq

/-- `NodeSVG.to_svg(path, width, height, gradient_color, image_border)`:
returns the document written to the file and the final state of the tree
(file I/O itself is the caller-side effect and is not modelled).  The
dimension check happens before the layout passes and before any output
is produced. -/
def to_svg (n : NodeSVG) (width height : Int)
    (gradient_color image_border : Bool) :
    Except RenderError (String × NodeSVG) :=
  if width < 10 ∨ width > 10000 ∨ height < 10 ∨ height > 10000 then
    .error .dimensionError
  else
    match computeXE n (width : ℚ) 0 0 1 with
    | .error _ => .error .degenerateInterval
    | .ok t1 =>
      match computeYE t1 (height : ℚ) 0 none with
      | .error _ => .error .degenerateInterval
      | .ok t2 =>
        let header := "<?xml version=\"1.0\" encoding=\"utf-8\" standalone=\"no\"?>\n\n<svg width=\"" ++
          toString width ++ "\" height=\"" ++ toString height ++
          "\" version=\"1.1\" xmlns=\"http://www.w3.org/2000/svg\">\n\n"
        let gd := gradientDefs t2 []
        let t3 := if gradient_color then gd.1 else t2
        let defs := if gradient_color then
            "    <defs>\n        <!-- linear gradient definitions -->\n" ++
              gd.2.1 ++ "    </defs>\n\n"
          else ""
        let title := "    <!-- image title -->\n    <title>Tree graphic created with pytreesvg</title>\n\n"
        let border := if image_border then
            "    <!-- image border -->\n    <rect x=\"0\" y=\"0\" width=\"" ++
              toString width ++ "\" height=\"" ++ toString height ++
              "\" style=\"stroke: #000000; fill: none;\"/>\n\n"
          else ""
        let corpse := svgRepresentation t3 gradient_color "    "
        .ok (header ++ title ++ defs ++ border ++ corpse ++ "</svg>\n", t3)

/-- The cumulative mutation `to_svg` performs on the tree when the
dimensions are accepted: the `x` pass, then the `y` pass, then (iff
`gradient_color`) the `svg_gradient` assignments of the definitions pass. -/
def to_svg_state (n : NodeSVG) (width height : Int) (gradient_color : Bool) :
    NodeSVG :=
  let t1 := computeX n (width : ℚ) 0 0 1
  let t2 := computeY t1 (height : ℚ) 0 none
  if gradient_color then (gradientDefs t2 []).1 else t2

mutual
/-- The construction-time data of a node: `value`, `children` list, `style`
and the initial coordinates — with `svg_gradient` erased and coordinates
reset.  `skeleton t = skeleton t'` says `t` and `t'` agree on everything a
render call is not allowed to touch. -/
def skeleton : NodeSVG → NodeSVG
  | .mk v cs st _ _ _ => .mk v (skeletonList cs) st 0 0 none

def skeletonList : List NodeSVG → List NodeSVG
  | [] => []
  | c :: rest => skeleton c :: skeletonList rest
end

/-!
Part 3: the dynamically-typed view needed for the constructor/`add_child`
contrast.  Python does not constrain the elements of the `children` list
passed to `NodeSVG.__init__`; `PyObjDyn.node` is a `NodeSVG` instance and
`PyObjDyn.other` any other Python object (identified by an opaque tag).
-/

inductive PyObjDyn where
  | node (value : String) (children : List PyObjDyn) (style : NodeStyle)
      (x y : ℚ)
  | other (tag : String)

/-- The `TypeError` of `NodeSVG.add_child`. -/
inductive PyError where
  | typeError
deriving DecidableEq

/-- `NodeSVG.__init__(value, children, style)`: the `children` argument is
stored as given when truthy (`if children:`), with no check on its
elements; the style string is parsed by `NodeStyle(style)`. -/
def nodeSVGInit (value : String) (children : Option (List PyObjDyn))
    (style : String) : Except StyleError PyObjDyn :=
  match parseStyle style with
  | .error e => .error e
  | .ok st =>
    .ok (.node value
      (match children with
       | none => []
       | some cs => if cs.isEmpty then [] else cs) st 0 0)

/-- `NodeSVG.add_child(child)`: raise `TypeError` unless `type(child) is
NodeSVG`, else append.  The result pairs the raised error (if any) with the
state of `self` afterwards — on `TypeError` the children list is untouched
because the exception is raised before the append. -/
def add_child (n : PyObjDyn) (child : PyObjDyn) :
    Option PyError × PyObjDyn :=
  match child with
  | .other _ => (some .typeError, n)
  | .node .. =>
    match n with
    | .node v cs st x y => (none, .node v (cs ++ [child]) st x y)
    | .other t => (none, .other t)

/-!
Part 4: concrete input data used by the counterexamples.
-/

def blueStyle : NodeStyle := ⟨"blue", 12⟩

def redStyle : NodeStyle := ⟨"red", 12⟩

/-- A blue root with a blue child whose own child is red: the only edge
with differing endpoint colors is the bottom one. -/
def blueBlueRedTree : NodeSVG :=
  .mk "a" [.mk "b" [.mk "c" [] redStyle 0 0 none] blueStyle 0 0 none]
    blueStyle 0 0 none

/-- A red root with a blue child whose own child is red: the two edges
carry the same unordered color pair in opposite orientations. -/
def redBlueRedTree : NodeSVG :=
  .mk "a" [.mk "b" [.mk "c" [] redStyle 0 0 none] blueStyle 0 0 none]
    redStyle 0 0 none

/-- A single default-styled leaf. -/
def blueLeaf : NodeSVG := .mk "1" [] blueStyle 0 0 none

/-- `Subnode n t u`: `u` is a node of the tree rooted at `n`, `t` edges
below `n`. -/
inductive Subnode : NodeSVG → Nat → NodeSVG → Prop where
  | refl (n : NodeSVG) : Subnode n 0 n
  | step {c : NodeSVG} {t : Nat} {u : NodeSVG} (n : NodeSVG)
      (hc : c ∈ n.children) (h : Subnode c t u) : Subnode n (t + 1) u
mutual
/-- Every node of the tree carries the `y` dictated by its depth `d`. -/
def YOk (h T : ℚ) (n : NodeSVG) (d : Int) : Prop :=
  match n with
  | .mk _ cs _ _ y _ =>
    y = map_value (d : ℚ) (-(1/2)) (T + 1/2) 0 h ∧ YOkList h T cs (d + 1)

def YOkList (h T : ℚ) (cs : List NodeSVG) (d : Int) : Prop :=
  match cs with
  | [] => True
  | c :: rest => YOk h T c d ∧ YOkList h T rest d
end
mutual
/-- Every node's children sit at strictly increasing `x` positions whose
sum is `count * parent.x` (so their mean is the parent's `x`). -/
def XOk (n : NodeSVG) : Prop :=
  match n with
  | .mk _ cs _ x _ _ =>
    (∀ (j k : Nat) (hj : j < cs.length) (hk : k < cs.length), j < k →
      (cs.get ⟨j, hj⟩).x < (cs.get ⟨k, hk⟩).x) ∧
    (cs.map NodeSVG.x).sum = cs.length * x ∧ XOkList cs

def XOkList : List NodeSVG → Prop
  | [] => True
  | c :: rest => XOk c ∧ XOkList rest
end

/-!
Part 5: lemmas about the token format and the split.
-/

theorem splitOnAt_ne_nil (cs : List Char) : splitOnAt cs ≠ [] := by
  induction cs with
  | nil => simp [splitOnAt]
  | cons c cs ih =>
    simp only [splitOnAt]
    split
    · simp
    · cases h : splitOnAt cs with
      | nil => simp
      | cons p ps => simp

theorem splitOnAt_append (u v : List Char) :
    splitOnAt (u ++ '@' :: v) = splitOnAt u ++ splitOnAt v := by
  induction u with
  | nil => simp [splitOnAt]
  | cons c u ih =>
    by_cases hc : c = '@'
    · subst hc
      simp [splitOnAt, ih]
    · rw [List.cons_append]
      simp only [splitOnAt, if_neg hc, ih]
      cases h : splitOnAt u with
      | nil => exact absurd h (splitOnAt_ne_nil u)
      | cons p ps => simp

theorem mem_splitOnAt_no_at (cs : List Char) (p : List Char)
    (hp : p ∈ splitOnAt cs) : '@' ∉ p := by
  induction cs generalizing p with
  | nil =>
    simp [splitOnAt] at hp
    simp [hp]
  | cons c cs ih =>
    simp only [splitOnAt] at hp
    by_cases hc : c = '@'
    · rw [if_pos hc] at hp
      rcases List.mem_cons.mp hp with h | h
      · simp [h]
      · exact ih p h
    · rw [if_neg hc] at hp
      cases h : splitOnAt cs with
      | nil => exact absurd h (splitOnAt_ne_nil cs)
      | cons q qs =>
        rw [h] at hp
        rcases List.mem_cons.mp hp with h' | h'
        · subst h'
          intro hmem
          rcases List.mem_cons.mp hmem with h'' | h''
          · exact hc h''.symm
          · exact ih q (h ▸ List.mem_cons_self q qs) h''
        · exact ih p (h ▸ List.mem_cons_of_mem q h')

theorem mem_splitOnAt_subset (cs p : List Char) (hp : p ∈ splitOnAt cs) :
    ∀ c ∈ p, c ∈ cs := by
  induction cs generalizing p with
  | nil =>
    simp [splitOnAt] at hp
    simp [hp]
  | cons c cs ih =>
    simp only [splitOnAt] at hp
    by_cases hc : c = '@'
    · rw [if_pos hc] at hp
      rcases List.mem_cons.mp hp with h | h
      · simp [h]
      · intro a ha
        exact List.mem_cons_of_mem c (ih p h a ha)
    · rw [if_neg hc] at hp
      cases h : splitOnAt cs with
      | nil => exact absurd h (splitOnAt_ne_nil cs)
      | cons q qs =>
        rw [h] at hp
        rcases List.mem_cons.mp hp with h' | h'
        · subst h'
          intro a ha
          rcases List.mem_cons.mp ha with h'' | h''
          · exact h'' ▸ List.mem_cons_self c cs
          · exact List.mem_cons_of_mem c
              (ih q (h ▸ List.mem_cons_self q qs) a h'')
        · intro a ha
          exact List.mem_cons_of_mem c
            (ih p (h ▸ List.mem_cons_of_mem q h') a ha)

theorem splitOnAt_of_no_at (cs : List Char) (h : '@' ∉ cs) :
    splitOnAt cs = [cs] := by
  induction cs with
  | nil => simp [splitOnAt]
  | cons c cs ih =>
    have hc : c ≠ '@' := fun hc => h (hc ▸ List.mem_cons_self c cs)
    have hcs : '@' ∉ cs := fun hm => h (List.mem_cons_of_mem c hm)
    simp only [splitOnAt, if_neg hc, ih hcs]

theorem takeWhile_append_of_all {p : Char → Bool} (l l' : List Char)
    (h : ∀ a ∈ l, p a) : (l ++ l').takeWhile p = l ++ l'.takeWhile p := by
  induction l with
  | nil => simp
  | cons a l ih =>
    have ha : p a := h a (List.mem_cons_self a l)
    simp only [List.cons_append, List.takeWhile_cons, ha, if_true]
    rw [ih (fun b hb => h b (List.mem_cons_of_mem a hb))]

theorem dropWhile_append_of_all {p : Char → Bool} (l l' : List Char)
    (h : ∀ a ∈ l, p a) : (l ++ l').dropWhile p = l'.dropWhile p := by
  induction l with
  | nil => simp
  | cons a l ih =>
    have ha : p a := h a (List.mem_cons_self a l)
    simp only [List.cons_append, List.dropWhile_cons, ha, if_true]
    exact ih (fun b hb => h b (List.mem_cons_of_mem a hb))

theorem matchFormatCore_spec (cs : List Char)
    (h : matchFormatCore cs = true) :
    ∃ xs ds, cs = xs ++ '@' :: ds ∧ xs ≠ [] ∧ '\n' ∉ xs ∧ ds ≠ [] ∧
      ∀ c ∈ ds, isPyDigit c := by
  unfold matchFormatCore at h
  obtain ⟨T, hT⟩ : ∃ T, cs.reverse.takeWhile isPyDigit = T := ⟨_, rfl⟩
  obtain ⟨D, hD⟩ : ∃ D, cs.reverse.dropWhile isPyDigit = D := ⟨_, rfl⟩
  have hsplit : cs.reverse = T ++ D := by
    rw [← hT, ← hD, List.takeWhile_append_dropWhile]
  rw [hT, hD] at h
  cases D with
  | nil => simp at h
  | cons a xs =>
    simp only [Bool.and_eq_true, Bool.not_eq_true', decide_eq_true_eq] at h
    obtain ⟨⟨⟨htw, ha⟩, hxs⟩, hnl⟩ := h
    subst ha
    refine ⟨xs.reverse, T.reverse, ?_, ?_, ?_, ?_, ?_⟩
    · have h2 := congrArg List.reverse hsplit
      rw [List.reverse_reverse] at h2
      rw [h2]
      simp
    · simp at hxs
      simp [hxs]
    · simp at hnl
      simp [hnl]
    · simp at htw
      simp [htw]
    · intro c hc
      rw [List.mem_reverse] at hc
      exact List.mem_takeWhile_imp (hT ▸ hc)

theorem matchFormatCore_of (xs ds : List Char) (hxs : xs ≠ [])
    (hnl : '\n' ∉ xs) (hds : ds ≠ []) (hdig : ∀ c ∈ ds, isPyDigit c) :
    matchFormatCore (xs ++ '@' :: ds) = true := by
  have hrev : (xs ++ '@' :: ds).reverse = ds.reverse ++ '@' :: xs.reverse := by
    simp
  have hall : ∀ a ∈ ds.reverse, isPyDigit a := by
    intro a ha
    exact hdig a (List.mem_reverse.mp ha)
  have hat : isPyDigit '@' = false := by decide
  unfold matchFormatCore
  rw [hrev, dropWhile_append_of_all _ _ hall, takeWhile_append_of_all _ _ hall]
  simp only [List.dropWhile_cons, List.takeWhile_cons, hat, Bool.false_eq_true,
    if_false]
  simp [hxs, hds, hnl]

theorem formatOk_of_core (cs : List Char) (h : matchFormatCore cs = true) :
    formatOk cs = true := by
  unfold formatOk
  rw [h]
  rfl

theorem formatOk_spec (cs : List Char) (h : formatOk cs = true) :
    ∃ xs ds tail, cs = xs ++ '@' :: (ds ++ tail) ∧ xs ≠ [] ∧ '\n' ∉ xs ∧
      ds ≠ [] ∧ (∀ c ∈ ds, isPyDigit c) ∧ (tail = [] ∨ tail = ['\n']) := by
  unfold formatOk at h
  rcases Bool.or_eq_true_iff.mp h with h1 | h2
  · obtain ⟨xs, ds, hcs, hxs, hnl, hds, hdig⟩ := matchFormatCore_spec cs h1
    exact ⟨xs, ds, [], by simpa using hcs, hxs, hnl, hds, hdig, Or.inl rfl⟩
  · rw [Bool.and_eq_true] at h2
    obtain ⟨hlast, hcore⟩ := h2
    rw [decide_eq_true_eq] at hlast
    obtain ⟨xs, ds, hcs, hxs, hnl, hds, hdig⟩ :=
      matchFormatCore_spec cs.dropLast hcore
    have hfull : cs.dropLast ++ ['\n'] = cs :=
      List.dropLast_append_getLast? '\n' hlast
    refine ⟨xs, ds, ['\n'], ?_, hxs, hnl, hds, hdig, Or.inr rfl⟩
    rw [← hfull, hcs]
    simp

theorem chuncksOf_structure (cs : List Char) (h : formatOk cs = true) :
    (∃ d0 drest, chuncksOf cs = [d0 :: drest] ∧ isPyDigit d0 = true) ∨
    (∃ c0 c1 rest, chuncksOf cs = c0 :: c1 :: rest ∧ c0 ≠ [] ∧ '@' ∉ c0 ∧
      '\n' ∉ c0) := by
  obtain ⟨xs, ds, tail, hcs, hxs, hnl, hds, hdig, htail⟩ := formatOk_spec cs h
  have hat_dst : '@' ∉ ds ++ tail := by
    intro hm
    rcases List.mem_append.mp hm with hm | hm
    · exact absurd (hdig _ hm) (by decide)
    · rcases htail with rfl | rfl
      · simp at hm
      · simp at hm
  have hdst_ne : ds ++ tail ≠ [] := by
    cases ds with
    | nil => exact absurd rfl hds
    | cons d dr => simp
  have hsplit : splitOnAt cs = splitOnAt xs ++ [ds ++ tail] := by
    rw [hcs, splitOnAt_append, splitOnAt_of_no_at _ hat_dst]
  have hchunks : chuncksOf cs =
      (splitOnAt xs).filter (fun p => !p.isEmpty) ++ [ds ++ tail] := by
    unfold chuncksOf
    rw [hsplit, List.filter_append]
    congr 1
    simp [hdst_ne]
  cases hfx : (splitOnAt xs).filter (fun p => !p.isEmpty) with
  | nil =>
    left
    cases ds with
    | nil => exact absurd rfl hds
    | cons d0 drest =>
      exact ⟨d0, drest ++ tail, by rw [hchunks, hfx]; simp,
        hdig d0 (List.mem_cons_self d0 drest)⟩
  | cons c0 f =>
    right
    have hc0 : c0 ∈ (splitOnAt xs).filter (fun p => !p.isEmpty) := by
      rw [hfx]; exact List.mem_cons_self c0 f
    have hc0' := List.mem_filter.mp hc0
    have hc0_ne : c0 ≠ [] := by
      have := hc0'.2
      simp at this
      exact this
    have hc0_mem : c0 ∈ splitOnAt xs := hc0'.1
    have hc0_at : '@' ∉ c0 := mem_splitOnAt_no_at xs c0 hc0_mem
    have hc0_nl : '\n' ∉ c0 := by
      intro hm
      exact hnl (mem_splitOnAt_subset xs c0 hc0_mem '\n' hm)
    cases f with
    | nil =>
      exact ⟨c0, ds ++ tail, [], by rw [hchunks, hfx]; simp, hc0_ne, hc0_at, hc0_nl⟩
    | cons c1 f' =>
      exact ⟨c0, c1, f' ++ [ds ++ tail], by rw [hchunks, hfx]; simp, hc0_ne,
        hc0_at, hc0_nl⟩

set_option maxRecDepth 4000 in
theorem keyword_heads_not_digit :
    ∀ s ∈ base_color_list, isPyDigit (s.data.headD ' ') = false := by decide

theorem rgbOpen_not_r (a : Char) (t : List Char) (hlow : a.toLower ≠ 'r') :
    rgbOpen (a :: t) = none := by
  match t with
  | [] => rfl
  | [b] => rfl
  | [b, c] => rfl
  | b :: c :: d :: rest =>
    simp only [rgbOpen]
    rw [if_neg]
    simp [hlow]

theorem digit_toLower_not_r (d0 : Char) (hd : isPyDigit d0 = true) :
    d0.toLower ≠ 'r' := by
  simp only [isPyDigit, List.mem_cons, decide_eq_true_eq] at hd
  rcases hd with rfl | rfl | rfl | rfl | rfl | rfl | rfl | rfl | rfl | rfl | h
  all_goals first
  | decide
  | simp at h

theorem colorOk_digit_head (d0 : Char) (rest : List Char)
    (hd : isPyDigit d0 = true) : colorOk (d0 :: rest) = false := by
  have hnr : d0.toLower ≠ 'r' := digit_toLower_not_r d0 hd
  have hnh : d0 ≠ '#' := by
    intro h
    rw [h] at hd
    exact absurd hd (by decide)
  have h1 : base_color_list.contains (String.mk (d0 :: rest)) = false := by
    by_contra hcon
    rw [Bool.not_eq_false] at hcon
    have hmem : String.mk (d0 :: rest) ∈ base_color_list := by
      simpa using hcon
    have := keyword_heads_not_digit _ hmem
    simp at this
    exact absurd hd (by simp [this])
  have h2 : hexadec_notation_ok (d0 :: rest) = false := by
    rw [hexadec_notation_ok.eq_def]
    split
    · next heq =>
      injection heq with heq1 _
      exact absurd heq1 hnh
    · rfl
  have h3 : rgb_notation_val_ok (d0 :: rest) = false := by
    unfold rgb_notation_val_ok
    rw [rgbOpen_not_r d0 rest hnr]
    rfl
  have h4 : rgb_notation_per_ok (d0 :: rest) = false := by
    unfold rgb_notation_per_ok
    rw [rgbOpen_not_r d0 rest hnr]
    simp
  unfold colorOk
  rw [h1, h2, h3, h4]
  rfl

theorem parseStyle_eq_of_format (r : String) (h : formatOk r.data = true) :
    parseStyle r =
      (match chuncksOf r.data with
      | [] => .error .indexError
      | [c0] => if colorOk c0 then .error .indexError else .error .colorError
      | c0 :: c1 :: _ =>
        if !colorOk c0 then .error .colorError
        else
          match pyInt c1 with
          | none => .error .intError
          | some n =>
            if n < 0 || n > 100 then .error .sizeError
            else .ok ⟨String.mk c0, n⟩) := by
  unfold parseStyle
  rw [h]
  rfl

theorem parseStyle_eq_of_not_format (r : String)
    (h : formatOk r.data = false) : parseStyle r = .error .formatError := by
  unfold parseStyle
  rw [h]
  rfl

theorem parseStyle_not_indexError (r : String) :
    parseStyle r ≠ .error .indexError := by
  by_cases hf : formatOk r.data = true
  · rw [parseStyle_eq_of_format r hf]
    rcases chuncksOf_structure r.data hf with
      ⟨d0, drest, hch, hdig⟩ | ⟨c0, c1, rest, hch, _, _, _⟩
    · rw [hch]
      show (if colorOk (d0 :: drest) then
          (Except.error StyleError.indexError : Except StyleError NodeStyle)
        else Except.error StyleError.colorError) ≠ Except.error StyleError.indexError
      rw [colorOk_digit_head d0 drest hdig]
      simp
    · rw [hch]
      show (if !colorOk c0 then
          (Except.error StyleError.colorError : Except StyleError NodeStyle)
        else
          match pyInt c1 with
          | none => Except.error StyleError.intError
          | some n =>
            if n < 0 || n > 100 then Except.error StyleError.sizeError
            else Except.ok ⟨String.mk c0, n⟩) ≠ Except.error StyleError.indexError
      split
      · simp
      · cases hpy : pyInt c1 with
        | none => simp
        | some n =>
          simp only []
          split <;> simp
  · rw [parseStyle_eq_of_not_format r (Bool.eq_false_iff.mpr hf)]
    simp

theorem parseStyle_cases (r : String) :
    (∃ st, parseStyle r = .ok st) ∨ parseStyle r = .error .formatError ∨
    parseStyle r = .error .colorError ∨ parseStyle r = .error .sizeError ∨
    parseStyle r = .error .intError := by
  cases hp : parseStyle r with
  | ok st => exact Or.inl ⟨st, rfl⟩
  | error e =>
    cases e with
    | formatError => exact Or.inr (Or.inl rfl)
    | colorError => exact Or.inr (Or.inr (Or.inl rfl))
    | sizeError => exact Or.inr (Or.inr (Or.inr (Or.inl rfl)))
    | intError => exact Or.inr (Or.inr (Or.inr (Or.inr rfl)))
    | indexError => exact absurd hp (parseStyle_not_indexError r)

theorem parseStyle_formatError_iff (r : String) :
    parseStyle r = .error .formatError ↔ formatOk r.data = false := by
  constructor
  · intro h
    by_contra hf
    have hf' : formatOk r.data = true := by
      cases hfm : formatOk r.data
      · exact absurd hfm hf
      · rfl
    rw [parseStyle_eq_of_format r hf'] at h
    rcases chuncksOf_structure r.data hf' with
      ⟨d0, drest, hch, hdig⟩ | ⟨c0, c1, rest, hch, _, _, _⟩
    · rw [hch] at h
      simp [colorOk_digit_head d0 drest hdig] at h
    · rw [hch] at h
      by_cases hcol : colorOk c0 = true
      · simp only [hcol, Bool.not_true, Bool.false_eq_true, if_false] at h
        cases hpy : pyInt c1 with
        | none => rw [hpy] at h; simp at h
        | some n =>
          rw [hpy] at h
          by_cases hrange : (n < 0 || n > 100) = true
          · simp [hrange] at h
          · simp [Bool.eq_false_iff.mpr hrange] at h
      · simp [Bool.eq_false_iff.mpr hcol] at h
  · intro h
    exact parseStyle_eq_of_not_format r h

theorem parseStyle_colorError_format (r : String)
    (h : parseStyle r = .error .colorError) : formatOk r.data = true := by
  by_contra hf
  rw [parseStyle_eq_of_not_format r (Bool.eq_false_iff.mpr hf)] at h
  simp at h

theorem parseStyle_late_error (r : String)
    (h : parseStyle r = .error .sizeError ∨ parseStyle r = .error .intError) :
    formatOk r.data = true ∧
      ∃ c0 c1 rest, chuncksOf r.data = c0 :: c1 :: rest ∧ colorOk c0 = true := by
  by_cases hf : formatOk r.data = true
  · refine ⟨hf, ?_⟩
    rcases chuncksOf_structure r.data hf with
      ⟨d0, drest, hch, hdig⟩ | ⟨c0, c1, rest, hch, _, _, _⟩
    · rw [parseStyle_eq_of_format r hf, hch] at h
      rcases h with h | h <;> simp [colorOk_digit_head d0 drest hdig] at h
    · refine ⟨c0, c1, rest, hch, ?_⟩
      rw [parseStyle_eq_of_format r hf, hch] at h
      by_contra hcol
      rcases h with h | h <;> simp [Bool.eq_false_iff.mpr hcol] at h
  · rw [parseStyle_eq_of_not_format r (Bool.eq_false_iff.mpr hf)] at h
    rcases h with h | h <;> simp at h

theorem parseStyle_ok_spec (r : String) (st : NodeStyle)
    (h : parseStyle r = .ok st) :
    formatOk r.data = true ∧
      ∃ c0 c1 rest, chuncksOf r.data = c0 :: c1 :: rest ∧ c0 ≠ [] ∧
        '@' ∉ c0 ∧ '\n' ∉ c0 ∧ colorOk c0 = true ∧
        pyInt c1 = some st.size ∧ 0 ≤ st.size ∧ st.size ≤ 100 ∧
        st.color = String.mk c0 := by
  by_cases hf : formatOk r.data = true
  · refine ⟨hf, ?_⟩
    rw [parseStyle_eq_of_format r hf] at h
    rcases chuncksOf_structure r.data hf with
      ⟨d0, drest, hch, hdig⟩ | ⟨c0, c1, rest, hch, hne, hat, hnl⟩
    · rw [hch] at h
      simp [colorOk_digit_head d0 drest hdig] at h
    · rw [hch] at h
      refine ⟨c0, c1, rest, hch, hne, hat, hnl, ?_⟩
      by_cases hcol : colorOk c0 = true
      · refine ⟨hcol, ?_⟩
        simp only [hcol, Bool.not_true, Bool.false_eq_true, if_false] at h
        cases hpy : pyInt c1 with
        | none => rw [hpy] at h; simp at h
        | some n =>
          rw [hpy] at h
          by_cases hrange : (n < 0 || n > 100) = true
          · simp [hrange] at h
          · have hr := Bool.eq_false_iff.mpr hrange
            simp only [hr, Bool.false_eq_true, if_false] at h
            have hst : st = ⟨String.mk c0, n⟩ := by
              cases h
              rfl
            simp only [Bool.or_eq_false_iff, decide_eq_false_iff_not,
              not_lt] at hr
            refine ⟨?_, ?_, ?_, ?_⟩
            · rw [hst]
            · rw [hst]; exact hr.1
            · rw [hst]; exact hr.2
            · rw [hst]
      · simp [Bool.eq_false_iff.mpr hcol] at h
  · rw [parseStyle_eq_of_not_format r (Bool.eq_false_iff.mpr hf)] at h
    simp at h

set_option maxRecDepth 8000 in
theorem natRepr_spec : ∀ m : Nat, m < 101 →
    natRepr m ≠ [] ∧ (∀ c ∈ natRepr m, isPyDigit c) ∧
      pyInt (natRepr m) = some (Int.ofNat m) := by decide

theorem parseStyle_roundtrip_aux (r : String) (st : NodeStyle)
    (h : parseStyle r = .ok st) : parseStyle (styleStr st) = .ok st := by
  obtain ⟨hf, c0, c1, rest, hch, hne, hat, hnl, hcol, hpy, h0, h100, hcolor⟩ :=
    parseStyle_ok_spec r st h
  have hm : st.size.toNat < 101 := by omega
  obtain ⟨hDne, hDdig, hDpy⟩ := natRepr_spec st.size.toNat hm
  have hir : intRepr st.size = natRepr st.size.toNat := by
    unfold intRepr
    rw [if_neg (by omega)]
  have hdata : (styleStr st).data = c0 ++ '@' :: natRepr st.size.toNat := by
    unfold styleStr
    rw [String.data_append, String.data_append, hir, hcolor]
    simp [String.mk]
  have hformat : formatOk (styleStr st).data = true := by
    rw [hdata]
    exact formatOk_of_core _
      (matchFormatCore_of c0 (natRepr st.size.toNat) hne hnl hDne hDdig)
  have hat_D : '@' ∉ natRepr st.size.toNat := by
    intro hm'
    exact absurd (hDdig _ hm') (by decide)
  have hch2 : chuncksOf (styleStr st).data = [c0, natRepr st.size.toNat] := by
    unfold chuncksOf
    rw [hdata, splitOnAt_append, splitOnAt_of_no_at _ hat,
      splitOnAt_of_no_at _ hat_D]
    simp [hne, hDne]
  rw [parseStyle_eq_of_format _ hformat, hch2]
  show (if !colorOk c0 then
      (Except.error StyleError.colorError : Except StyleError NodeStyle)
    else
      match pyInt (natRepr st.size.toNat) with
      | none => Except.error StyleError.intError
      | some n =>
        if n < 0 || n > 100 then Except.error StyleError.sizeError
        else Except.ok ⟨String.mk c0, n⟩) = Except.ok st
  have hpy2 : pyInt (natRepr st.size.toNat) = some st.size := by
    rw [hDpy]
    congr 1
    show (st.size.toNat : Int) = st.size
    omega
  rw [hpy2]
  simp only [hcol, Bool.not_true, Bool.false_eq_true, if_false]
  have hrange : (st.size < 0 || st.size > 100) = false := by
    simp only [Bool.or_eq_false_iff, decide_eq_false_iff_not, not_lt]
    exact ⟨h0, h100⟩
  rw [hrange]
  simp only [Bool.false_eq_true, if_false]
  cases st with
  | mk color size =>
    simp only at hcolor
    rw [hcolor]

theorem foldl_max_ge (l : List Int) (b : Int) :
    b ≤ l.foldl max b ∧ ∀ x ∈ l, x ≤ l.foldl max b := by
  induction l generalizing b with
  | nil => simp
  | cons a l ih =>
    refine ⟨?_, ?_⟩
    · exact le_trans (le_max_left b a) (ih (max b a)).1
    · intro x hx
      rcases List.mem_cons.mp hx with rfl | hx
      · exact le_trans (le_max_right b x) (ih (max b x)).1
      · exact (ih (max b a)).2 x hx

theorem le_listMax (l : List Int) (x : Int) (hx : x ∈ l) : x ≤ listMax l := by
  cases l with
  | nil => simp at hx
  | cons a l =>
    rcases List.mem_cons.mp hx with rfl | hx
    · exact (foldl_max_ge l x).1
    · exact (foldl_max_ge l a).2 x hx

mutual
theorem get_depth_ge (n : NodeSVG) (d : Int) : d ≤ get_depth n d := by
  match n with
  | .mk v cs st x y g =>
    cases cs with
    | nil => simp [get_depth]
    | cons c rest =>
      have h1 : get_depth c (d + 1) ∈ get_depthList (c :: rest) (d + 1) := by
        rw [get_depthList]
        exact List.mem_cons_self _ _
      have h2 := get_depth_ge c (d + 1)
      have h3 := le_listMax _ _ h1
      rw [get_depth]
      simp only [List.isEmpty_cons, Bool.false_eq_true, if_false]
      omega

theorem get_depthList_ge (cs : List NodeSVG) (d : Int) :
    ∀ x ∈ get_depthList cs d, d ≤ x := by
  match cs with
  | [] => simp [get_depthList]
  | c :: rest =>
    intro x hx
    rw [get_depthList] at hx
    rcases List.mem_cons.mp hx with rfl | hx
    · exact get_depth_ge c d
    · exact get_depthList_ge rest d x hx
end

theorem foldl_max_map_add (l : List Int) (b d : Int) :
    (l.map (· + d)).foldl max (b + d) = l.foldl max b + d := by
  induction l generalizing b with
  | nil => simp
  | cons a l ih =>
    simp only [List.map_cons, List.foldl_cons]
    rw [max_add_add_right b a d, ih]

theorem listMax_map_add (l : List Int) (d : Int) (hl : l ≠ []) :
    listMax (l.map (· + d)) = listMax l + d := by
  cases l with
  | nil => exact absurd rfl hl
  | cons a l =>
    simp only [List.map_cons, listMax]
    exact foldl_max_map_add l a d

mutual
theorem get_depth_shift (n : NodeSVG) (d : Int) :
    get_depth n d = get_depth n 0 + d := by
  match n with
  | .mk v cs st x y g =>
    cases cs with
    | nil => simp [get_depth]
    | cons c rest =>
      rw [get_depth, get_depth]
      simp only [List.isEmpty_cons, Bool.false_eq_true, if_false, zero_add]
      rw [get_depthList_shift (c :: rest) (d + 1),
        get_depthList_shift (c :: rest) 1,
        listMax_map_add _ _ (by simp [get_depthList]),
        listMax_map_add _ _ (by simp [get_depthList])]
      omega

theorem get_depthList_shift (cs : List NodeSVG) (d : Int) :
    get_depthList cs d = (get_depthList cs 0).map (· + d) := by
  match cs with
  | [] => simp [get_depthList]
  | c :: rest =>
    rw [get_depthList, get_depthList]
    simp only [List.map_cons]
    rw [get_depth_shift c d, get_depthList_shift rest d]
end



theorem subnode_zero {n u : NodeSVG} (h : Subnode n 0 u) : u = n := by
  cases h
  rfl

theorem subnode_succ {n u : NodeSVG} {t : Nat} (h : Subnode n (t + 1) u) :
    ∃ c ∈ n.children, Subnode c t u := by
  cases h with
  | step _ hc h => exact ⟨_, hc, h⟩

theorem mem_get_depthList (cs : List NodeSVG) (c : NodeSVG) (d : Int)
    (hc : c ∈ cs) : get_depth c d ∈ get_depthList cs d := by
  induction cs with
  | nil => simp at hc
  | cons a cs ih =>
    rw [get_depthList]
    rcases List.mem_cons.mp hc with rfl | hc
    · exact List.mem_cons_self _ _
    · exact List.mem_cons_of_mem _ (ih hc)

theorem subnode_le_depth {n u : NodeSVG} {t : Nat} (h : Subnode n t u) :
    (t : Int) ≤ get_depth n 0 := by
  induction h with
  | refl n => simpa using get_depth_ge n 0
  | step n hc hsub ih =>
    rename_i c t u
    match n, hc with
    | .mk v cs st x y g, hc =>
      have hc' : c ∈ cs := hc
      have h1 : get_depth c 1 ∈ get_depthList cs 1 := mem_get_depthList cs c 1 hc'
      have h2 := le_listMax _ _ h1
      have h3 := get_depth_shift c 1
      have hne : cs.isEmpty = false := by
        cases cs
        · simp at hc'
        · rfl
      rw [get_depth, hne]
      simp only [Bool.false_eq_true, if_false, zero_add]
      push_cast
      omega

theorem map_value_y_form (t T h : ℚ) :
    map_value t (-(1/2)) (T + 1/2) 0 h = (t + 1/2) / (T + 1) * h := by
  unfold map_value
  ring_nf

theorem map_value_x_form (i m w : ℚ) :
    map_value i (-(1/2)) (m - 1/2) 0 w = (i + 1/2) / m * w := by
  unfold map_value
  ring_nf

theorem map_value_off_form (i m w : ℚ) :
    map_value (i - 1) (-1) (m - 1) 0 w = i / m * w := by
  unfold map_value
  ring_nf



theorem yokList_mem (h T : ℚ) (cs : List NodeSVG) (d : Int) (c : NodeSVG)
    (hok : YOkList h T cs d) (hc : c ∈ cs) : YOk h T c d := by
  induction cs with
  | nil => simp at hc
  | cons a cs ih =>
    rw [YOkList] at hok
    rcases List.mem_cons.mp hc with rfl | hc
    · exact hok.1
    · exact ih hok.2 hc

theorem effTreeDepth_some (n : NodeSVG) (T : Int) (hT : T ≠ 0) :
    effTreeDepth n (some T) = T := by
  show (if T = 0 then get_depth n 0 else T) = T
  rw [if_neg hT]

mutual
theorem yok_compute (n : NodeSVG) (h : ℚ) (d : Int) (T : Int) (hT : T ≠ 0) :
    YOk h (T : ℚ) (computeY n h d (some T)) d := by
  match n with
  | .mk v cs st x y g =>
    rw [computeY]
    rw [effTreeDepth_some _ _ hT]
    rw [YOk]
    exact ⟨rfl, yok_computeList cs h (d + 1) T hT⟩

theorem yok_computeList (cs : List NodeSVG) (h : ℚ) (d : Int) (T : Int)
    (hT : T ≠ 0) : YOkList h (T : ℚ) (computeYList cs h d (some T)) d := by
  match cs with
  | [] =>
    rw [computeYList, YOkList]
    trivial
  | c :: rest =>
    rw [computeYList, YOkList]
    exact ⟨yok_compute c h d T hT, yok_computeList rest h d T hT⟩
end

theorem get_depth_pos (v : String) (cs : List NodeSVG) (st : NodeStyle)
    (x y : ℚ) (g : Option String) (hcs : cs ≠ []) :
    1 ≤ get_depth (.mk v cs st x y g) 0 := by
  match cs, hcs with
  | c :: rest, _ =>
    rw [get_depth]
    simp only [List.isEmpty_cons, Bool.false_eq_true, if_false, zero_add]
    have h1 := le_listMax _ _ (mem_get_depthList (c :: rest) c 1
      (List.mem_cons_self c rest))
    have h2 := get_depth_ge c 1
    omega

theorem yok_root (n : NodeSVG) (h : ℚ) :
    YOk h (get_depth n 0 : ℚ) (computeY n h 0 none) 0 := by
  match n with
  | .mk v cs st x y g =>
    cases hcs : cs with
    | nil =>
      subst hcs
      have hT : get_depth (NodeSVG.mk v [] st x y g) 0 = 0 := by
        rw [get_depth]
        simp
      rw [computeY]
      have heff : effTreeDepth (NodeSVG.mk v [] st x y g) none =
          get_depth (NodeSVG.mk v [] st x y g) 0 := rfl
      rw [heff, YOk]
      refine ⟨rfl, ?_⟩
      rw [computeYList, YOkList]
      trivial
    | cons c rest =>
      subst hcs
      have hT : 1 ≤ get_depth (NodeSVG.mk v (c :: rest) st x y g) 0 :=
        get_depth_pos v (c :: rest) st x y g (by simp)
      have hT0 : get_depth (NodeSVG.mk v (c :: rest) st x y g) 0 ≠ 0 := by
        omega
      rw [computeY]
      have heff : effTreeDepth (NodeSVG.mk v (c :: rest) st x y g) none =
          get_depth (NodeSVG.mk v (c :: rest) st x y g) 0 := rfl
      rw [heff, YOk]
      exact ⟨rfl, yok_computeList (c :: rest) h (0 + 1)
        (get_depth (NodeSVG.mk v (c :: rest) st x y g) 0) hT0⟩

theorem yok_subnode (h T : ℚ) (n : NodeSVG) (d : Int) (t : Nat)
    (u : NodeSVG) (hok : YOk h T n d) (hsub : Subnode n t u) :
    u.y = map_value ((d + t : Int) : ℚ) (-(1/2)) (T + 1/2) 0 h := by
  induction hsub generalizing d with
  | refl m =>
    match m, hok with
    | .mk v cs st x y g, hok =>
      rw [YOk] at hok
      simpa [NodeSVG.y] using hok.1
  | step m hc hsubr ih =>
    rename_i c t' u'
    match m, hc, hok with
    | .mk v cs st x y g, hc, hok =>
      rw [YOk] at hok
      have hcok : YOk h T c (d + 1) :=
        yokList_mem h T cs (d + 1) c hok.2 hc
      have := ih (d + 1) hcok
      rw [this]
      congr 1
      push_cast
      ring

theorem y_formula_pos (t T h : ℚ) (hh : 0 < h) (ht0 : 0 ≤ t) (htT : t ≤ T) :
    0 < (t + 1/2) / (T + 1) * h := by
  have h1 : (0 : ℚ) < t + 1/2 := by linarith
  have h2 : (0 : ℚ) < T + 1 := by linarith
  positivity

theorem y_formula_lt (t T h : ℚ) (hh : 0 < h) (ht0 : 0 ≤ t) (htT : t ≤ T) :
    (t + 1/2) / (T + 1) * h < h := by
  have h2 : (0 : ℚ) < T + 1 := by linarith
  have h3 : (t + 1/2) / (T + 1) < 1 := by
    rw [div_lt_one h2]
    linarith
  calc (t + 1/2) / (T + 1) * h < 1 * h := by
        exact mul_lt_mul_of_pos_right h3 hh
    _ = h := by ring

theorem y_formula_mono (t t' T h : ℚ) (hh : 0 < h) (hT : 0 ≤ T)
    (hlt : t < t') : (t + 1/2) / (T + 1) * h < (t' + 1/2) / (T + 1) * h := by
  have h2 : (0 : ℚ) < T + 1 := by linarith
  have key : (0 : ℚ) < h / (T + 1) := by positivity
  calc (t + 1/2) / (T + 1) * h = (t + 1/2) * (h / (T + 1)) := by ring
    _ < (t' + 1/2) * (h / (T + 1)) := by
        exact mul_lt_mul_of_pos_right (by linarith) key
    _ = (t' + 1/2) / (T + 1) * h := by ring

mutual
theorem get_depth_computeY (n : NodeSVG) (h : ℚ) (d : Int) (td : Option Int)
    (d' : Int) : get_depth (computeY n h d td) d' = get_depth n d' := by
  match n with
  | .mk v cs st x y g =>
    rw [computeY]
    cases cs with
    | nil =>
      rw [computeYList, get_depth, get_depth]
    | cons c rest =>
      rw [computeYList, get_depth, get_depth]
      simp only [List.isEmpty_cons, Bool.false_eq_true, if_false]
      congr 1
      rw [get_depthList, get_depthList,
        get_depth_computeY c h (d + 1) _ _,
        get_depthList_computeY rest h (d + 1) _ _]

theorem get_depthList_computeY (cs : List NodeSVG) (h : ℚ) (d : Int)
    (td : Option Int) (d' : Int) :
    get_depthList (computeYList cs h d td) d' = get_depthList cs d' := by
  match cs with
  | [] => rw [computeYList]
  | c :: rest =>
    rw [computeYList, get_depthList, get_depthList,
      get_depth_computeY c h d td d', get_depthList_computeY rest h d td d']
end



theorem xokList_mem (cs : List NodeSVG) (c : NodeSVG) (hok : XOkList cs)
    (hc : c ∈ cs) : XOk c := by
  induction cs with
  | nil => simp at hc
  | cons a cs ih =>
    rw [XOkList] at hok
    rcases List.mem_cons.mp hc with rfl | hc
    · exact hok.1
    · exact ih hok.2 hc

theorem computeXList_length (cs : List NodeSVG) (w off : ℚ) (i : Int)
    (nb : Nat) : (computeXList cs w off i nb).length = cs.length := by
  induction cs generalizing i with
  | nil => rw [computeXList]
  | cons c rest ih =>
    rw [computeXList]
    simp [ih (i + 1)]

theorem computeX_x (n : NodeSVG) (w off : ℚ) (i : Int) (nb : Nat) :
    (computeX n w off i nb).x =
      off + map_value (i : ℚ) (-(1/2)) ((nb : ℚ) - 1/2) 0 w := by
  match n with
  | .mk v cs st x y g =>
    rw [computeX]
    rfl

theorem computeXList_get? (cs : List NodeSVG) (w off : ℚ) (i : Int)
    (nb : Nat) (j : Nat) :
    (computeXList cs w off i nb)[j]? =
      (cs[j]?).map (fun c => computeX c w off (i + j) nb) := by
  induction cs generalizing i j with
  | nil =>
    rw [computeXList]
    simp
  | cons c rest ih =>
    rw [computeXList]
    cases j with
    | zero => simp
    | succ j =>
      rw [List.getElem?_cons_succ, ih (i + 1) j, List.getElem?_cons_succ]
      cases hc : rest[j]? with
      | none => simp
      | some c' =>
        simp only [Option.map_some']
        congr 2
        push_cast
        ring

theorem computeXList_sum (cs : List NodeSVG) (w off : ℚ) (i : Int)
    (nb : Nat) :
    ((computeXList cs w off i nb).map NodeSVG.x).sum =
      cs.length * off +
        (cs.length * (i : ℚ) + (cs.length : ℚ) ^ 2 / 2) * (w / nb) := by
  induction cs generalizing i with
  | nil =>
    rw [computeXList]
    simp
  | cons c rest ih =>
    rw [computeXList]
    simp only [List.map_cons, List.sum_cons, List.length_cons]
    rw [ih (i + 1), computeX_x, map_value_x_form]
    push_cast
    ring

theorem div_pos_of_pos_of_one_le (w : ℚ) (nb : Nat) (hw : 0 < w)
    (hnb : 1 ≤ nb) : 0 < w / (nb : ℚ) := by
  have : (0 : ℚ) < (nb : ℚ) := by
    have : (1 : ℚ) ≤ (nb : ℚ) := by exact_mod_cast hnb
    linarith
  positivity

mutual
theorem xok_computeX (n : NodeSVG) (w off : ℚ) (i : Int) (nb : Nat)
    (hw : 0 < w) (hnb : 1 ≤ nb) : XOk (computeX n w off i nb) := by
  match n with
  | .mk v cs st x y g =>
    rw [computeX, XOk]
    refine ⟨?_, ?_, ?_⟩
    · -- strictly increasing children positions
      intro j k hj hk hjk
      have hlen := computeXList_length cs (w / (nb : ℚ))
        (off + map_value ((i : ℚ) - 1) (-1) ((nb : ℚ) - 1) 0 w) 0 cs.length
      have hj' : j < cs.length := by rwa [hlen] at hj
      have hk' : k < cs.length := by rwa [hlen] at hk
      have hgj := computeXList_get? cs (w / (nb : ℚ))
        (off + map_value ((i : ℚ) - 1) (-1) ((nb : ℚ) - 1) 0 w) 0 cs.length j
      have hgk := computeXList_get? cs (w / (nb : ℚ))
        (off + map_value ((i : ℚ) - 1) (-1) ((nb : ℚ) - 1) 0 w) 0 cs.length k
      rw [List.getElem?_eq_getElem hj', Option.map_some'] at hgj
      rw [List.getElem?_eq_getElem hk', Option.map_some'] at hgk
      rw [List.getElem?_eq_getElem hj] at hgj
      rw [List.getElem?_eq_getElem hk] at hgk
      have hgj' := Option.some.inj hgj
      have hgk' := Option.some.inj hgk
      rw [List.get_eq_getElem, List.get_eq_getElem, hgj', hgk',
        computeX_x, computeX_x, map_value_x_form, map_value_x_form]
      have hm : 0 < (cs.length : ℚ) := by
        have h0 : 0 < cs.length := Nat.lt_of_le_of_lt (Nat.zero_le k) hk'
        exact_mod_cast h0
      have hw' : 0 < w / (nb : ℚ) := div_pos_of_pos_of_one_le w nb hw hnb
      have hfac : 0 < (w / (nb : ℚ)) / (cs.length : ℚ) := by positivity
      have hjk' : ((0 + (j : Int) : Int) : ℚ) + 1/2 <
          ((0 + (k : Int) : Int) : ℚ) + 1/2 := by
        push_cast
        have : (j : ℚ) < (k : ℚ) := by exact_mod_cast hjk
        linarith
      apply add_lt_add_left
      calc (((0 + (j : Int) : Int) : ℚ) + 1/2) / (cs.length : ℚ) *
            (w / (nb : ℚ))
          = (((0 + (j : Int) : Int) : ℚ) + 1/2) *
            ((w / (nb : ℚ)) / (cs.length : ℚ)) := by ring
        _ < (((0 + (k : Int) : Int) : ℚ) + 1/2) *
            ((w / (nb : ℚ)) / (cs.length : ℚ)) :=
            mul_lt_mul_of_pos_right hjk' hfac
        _ = (((0 + (k : Int) : Int) : ℚ) + 1/2) / (cs.length : ℚ) *
            (w / (nb : ℚ)) := by ring
    · -- the children's x values sum to count * parent.x
      rw [computeXList_sum, computeXList_length]
      cases hcs : cs with
      | nil => simp
      | cons c rest =>
        have hm : (0 : ℚ) < ((c :: rest).length : ℚ) := by
          have h0 : 0 < (c :: rest).length := by simp
          exact_mod_cast h0
        have hnb' : (0 : ℚ) < (nb : ℚ) := by
          have : (1 : ℚ) ≤ (nb : ℚ) := by exact_mod_cast hnb
          linarith
        rw [map_value_x_form, map_value_off_form]
        field_simp
        ring
    · -- recursively, every subtree is well spaced
      cases hcs : cs with
      | nil =>
        rw [computeXList, XOkList]
        trivial
      | cons c rest =>
        exact xok_computeXList (c :: rest) (w / (nb : ℚ))
          (off + map_value ((i : ℚ) - 1) (-1) ((nb : ℚ) - 1) 0 w) 0
          (c :: rest).length (div_pos_of_pos_of_one_le w nb hw hnb) (by simp)

theorem xok_computeXList (cs : List NodeSVG) (w off : ℚ) (i : Int) (nb : Nat)
    (hw : 0 < w) (hnb : 1 ≤ nb) : XOkList (computeXList cs w off i nb) := by
  match cs with
  | [] =>
    rw [computeXList, XOkList]
    trivial
  | c :: rest =>
    rw [computeXList, XOkList]
    exact ⟨xok_computeX c w off i nb hw hnb,
      xok_computeXList rest w off (i + 1) nb hw hnb⟩
end

theorem xok_subnode (n u : NodeSVG) (t : Nat) (hok : XOk n)
    (hsub : Subnode n t u) : XOk u := by
  induction hsub with
  | refl => exact hok
  | step m hc hsubr ih =>
    apply ih
    rename_i c t' u'
    match m, hc, hok with
    | .mk v cs st x y g, hc, hok =>
      rw [XOk] at hok
      exact xokList_mem cs _ hok.2.2 hc

theorem map_valueE_ok (x a b c d : ℚ) (hab : a ≠ b) (hcd : c ≠ d) :
    map_valueE x a b c d = .ok (map_value x a b c d) := by
  unfold map_valueE map_value
  rw [if_neg]
  push_neg
  exact ⟨hab, hcd⟩

mutual
theorem computeXE_ok (n : NodeSVG) (w off : ℚ) (i : Int) (nb : Nat)
    (hw : w ≠ 0) (hnb : 1 ≤ nb) :
    computeXE n w off i nb = .ok (computeX n w off i nb) := by
  match n with
  | .mk v cs st x y g =>
    have hnbq : ((nb : ℚ)) ≠ 0 := by
      have h1 : (1 : ℚ) ≤ (nb : ℚ) := by exact_mod_cast hnb
      intro h0
      rw [h0] at h1
      linarith
    have h1 : (-(1/2) : ℚ) ≠ (nb : ℚ) - 1/2 := by
      intro h
      apply hnbq
      linarith
    have h2 : (0 : ℚ) ≠ w := Ne.symm hw
    have h3 : (-1 : ℚ) ≠ (nb : ℚ) - 1 := by
      intro h
      apply hnbq
      linarith
    rw [computeXE, computeX, map_valueE_ok _ _ _ _ _ h1 h2,
      map_valueE_ok _ _ _ _ _ h3 h2]
    show (match computeXListE cs (w / (nb : ℚ))
        (off + map_value ((i : ℚ) - 1) (-1) ((nb : ℚ) - 1) 0 w) 0
        cs.length with
      | Except.error e => Except.error e
      | Except.ok cs' =>
        Except.ok (NodeSVG.mk v cs' st
          (off + map_value (i : ℚ) (-(1/2)) ((nb : ℚ) - 1/2) 0 w) y g)) = _
    cases cs with
    | nil =>
      rw [computeXListE, computeXList]
    | cons c rest =>
      rw [computeXListE_ok (c :: rest) (w / (nb : ℚ)) _ 0 (c :: rest).length
        (div_ne_zero hw hnbq) (by simp)]

theorem computeXListE_ok (cs : List NodeSVG) (w off : ℚ) (i : Int) (nb : Nat)
    (hw : w ≠ 0) (hnb : 1 ≤ nb) :
    computeXListE cs w off i nb = .ok (computeXList cs w off i nb) := by
  match cs with
  | [] => rw [computeXListE, computeXList]
  | c :: rest =>
    rw [computeXListE, computeXList, computeXE_ok c w off i nb hw hnb,
      computeXListE_ok rest w off (i + 1) nb hw hnb]
end

theorem effTreeDepth_nonneg (n : NodeSVG) (td : Option Int)
    (htd : ∀ t, td = some t → 0 ≤ t) : 0 ≤ effTreeDepth n td := by
  cases td with
  | none =>
    show (0 : Int) ≤ get_depth n 0
    simpa using get_depth_ge n 0
  | some t =>
    show (0 : Int) ≤ if t = 0 then get_depth n 0 else t
    split
    · simpa using get_depth_ge n 0
    · exact htd t rfl

mutual
theorem computeYE_ok (n : NodeSVG) (h : ℚ) (d : Int) (td : Option Int)
    (hh : h ≠ 0) (htd : ∀ t, td = some t → 0 ≤ t) :
    computeYE n h d td = .ok (computeY n h d td) := by
  match n with
  | .mk v cs st x y g =>
    have hT : 0 ≤ effTreeDepth (NodeSVG.mk v cs st x y g) td :=
      effTreeDepth_nonneg _ td htd
    have hab : (-(1/2) : ℚ) ≠
        ((effTreeDepth (NodeSVG.mk v cs st x y g) td : ℚ) + 1/2) := by
      intro heq
      have h2 : ((effTreeDepth (NodeSVG.mk v cs st x y g) td : ℤ) : ℚ) =
          (-1 : ℤ) := by
        push_cast
        linarith
      have h3 : effTreeDepth (NodeSVG.mk v cs st x y g) td = -1 := by
        exact_mod_cast h2
      omega
    have hcd : (0 : ℚ) ≠ h := Ne.symm hh
    rw [computeYE, computeY, map_valueE_ok _ _ _ _ _ hab hcd]
    show (match computeYListE cs h (d + 1)
        (some (effTreeDepth (NodeSVG.mk v cs st x y g) td)) with
      | Except.error e => Except.error e
      | Except.ok cs' =>
        Except.ok (NodeSVG.mk v cs' st x
          (map_value (d : ℚ) (-(1/2))
            ((effTreeDepth (NodeSVG.mk v cs st x y g) td : ℚ) + 1/2) 0 h)
          g)) = _
    rw [computeYListE_ok cs h (d + 1)
      (some (effTreeDepth (NodeSVG.mk v cs st x y g) td)) hh
      (fun t ht => by
        injection ht with ht'
        omega)]

theorem computeYListE_ok (cs : List NodeSVG) (h : ℚ) (d : Int)
    (td : Option Int) (hh : h ≠ 0) (htd : ∀ t, td = some t → 0 ≤ t) :
    computeYListE cs h d td = .ok (computeYList cs h d td) := by
  match cs with
  | [] => rw [computeYListE, computeYList]
  | c :: rest =>
    rw [computeYListE, computeYList, computeYE_ok c h d td hh htd,
      computeYListE_ok rest h d td hh htd]
end

mutual
theorem skeleton_computeX (n : NodeSVG) (w off : ℚ) (i : Int) (nb : Nat) :
    skeleton (computeX n w off i nb) = skeleton n := by
  match n with
  | .mk v cs st x y g =>
    rw [computeX, skeleton, skeleton,
      skeleton_computeXList cs (w / (nb : ℚ)) _ 0 cs.length]

theorem skeleton_computeXList (cs : List NodeSVG) (w off : ℚ) (i : Int)
    (nb : Nat) : skeletonList (computeXList cs w off i nb) = skeletonList cs := by
  match cs with
  | [] => rw [computeXList]
  | c :: rest =>
    rw [computeXList, skeletonList, skeletonList,
      skeleton_computeX c w off i nb, skeleton_computeXList rest w off (i + 1) nb]
end

mutual
theorem skeleton_computeY (n : NodeSVG) (h : ℚ) (d : Int) (td : Option Int) :
    skeleton (computeY n h d td) = skeleton n := by
  match n with
  | .mk v cs st x y g =>
    rw [computeY, skeleton, skeleton, skeleton_computeYList cs h (d + 1) _]

theorem skeleton_computeYList (cs : List NodeSVG) (h : ℚ) (d : Int)
    (td : Option Int) :
    skeletonList (computeYList cs h d td) = skeletonList cs := by
  match cs with
  | [] => rw [computeYList]
  | c :: rest =>
    rw [computeYList, skeletonList, skeletonList, skeleton_computeY c h d td,
      skeleton_computeYList rest h d td]
end

mutual
theorem skeleton_gradientDefs (n : NodeSVG) (created : List String) :
    skeleton (gradientDefs n created).1 = skeleton n := by
  match n with
  | .mk v cs st x y g =>
    rw [gradientDefs, skeleton, skeleton, skeleton_gradientDefsLoop st cs _]

theorem skeleton_gradientDefsLoop (st : NodeStyle) (cs : List NodeSVG)
    (created : List String) :
    skeletonList (gradientDefsLoop st cs created).1 = skeletonList cs := by
  match cs with
  | [] => rw [gradientDefsLoop]
  | c :: rest =>
    rw [gradientDefsLoop]
    split
    · rw [skeletonList, skeletonList, skeleton_gradientDefs c _,
        skeleton_gradientDefsLoop st rest _]
    · rw [skeletonList, skeletonList, skeleton_gradientDefsLoop st rest _]
end

theorem gradientDefs_reset (l : List String) :
    (if l.isEmpty then ([] : List String) else l) = l := by
  cases l <;> rfl

mutual
theorem gradientDefs_created (n : NodeSVG) (created : List String)
    (hnd : created.Nodup) :
    ((gradientDefs n created).2.2).Nodup ∧
      ∃ added, (gradientDefs n created).2.2 = created ++ added := by
  match n with
  | .mk v cs st x y g =>
    rw [gradientDefs]
    simp only [gradientDefs_reset]
    exact gradientDefsLoop_created st cs created hnd

theorem gradientDefsLoop_created (st : NodeStyle) (cs : List NodeSVG)
    (created : List String) (hnd : created.Nodup) :
    ((gradientDefsLoop st cs created).2.2).Nodup ∧
      ∃ added, (gradientDefsLoop st cs created).2.2 = created ++ added := by
  match cs with
  | [] =>
    rw [gradientDefsLoop]
    exact ⟨hnd, [], by simp⟩
  | c :: rest =>
    rw [gradientDefsLoop]
    split
    · next hcond =>
      have hnd1 : (created ++ [gradientId st c.style]).Nodup := by
        rw [List.nodup_append]
        exact ⟨hnd, List.nodup_singleton _, by
          intro a ha hb
          simp at hb
          rw [hb] at ha
          exact hcond.2 ha⟩
      obtain ⟨hnd2, added1, hadd1⟩ :=
        gradientDefs_created c (created ++ [gradientId st c.style]) hnd1
      obtain ⟨hnd3, added2, hadd2⟩ :=
        gradientDefsLoop_created st rest (gradientDefs c
          (created ++ [gradientId st c.style])).2.2 hnd2
      refine ⟨hnd3, [gradientId st c.style] ++ added1 ++ added2, ?_⟩
      rw [hadd2, hadd1]
      simp
    · exact gradientDefsLoop_created st rest created hnd
end

theorem blueStyle_color : blueStyle.color = "blue" := rfl

theorem redStyle_color : redStyle.color = "red" := rfl

theorem gradientId_blue_red : gradientId blueStyle redStyle = "grad_blue_red" := rfl

theorem gradientId_red_blue : gradientId redStyle blueStyle = "grad_red_blue" := rfl

theorem gradientId_blue_blue : gradientId blueStyle blueStyle = "grad_blue_blue" := rfl

theorem to_svg_ok_of_inbounds (n : NodeSVG) (w h : Int) (gc ib : Bool)
    (hw1 : 10 ≤ w) (hw2 : w ≤ 10000) (hh1 : 10 ≤ h) (hh2 : h ≤ 10000) :
    ∃ out, to_svg n w h gc ib = .ok out := by
  have hwne : ((w : ℚ)) ≠ 0 := by
    have hcast : (10 : ℚ) ≤ (w : ℚ) := by exact_mod_cast hw1
    intro h0
    rw [h0] at hcast
    linarith
  have hhne : ((h : ℚ)) ≠ 0 := by
    have hcast : (10 : ℚ) ≤ (h : ℚ) := by exact_mod_cast hh1
    intro h0
    rw [h0] at hcast
    linarith
  unfold to_svg
  rw [if_neg (by omega : ¬(w < 10 ∨ w > 10000 ∨ h < 10 ∨ h > 10000))]
  simp only [computeXE_ok n (w : ℚ) 0 0 1 hwne (le_refl 1),
    computeYE_ok (computeX n (w : ℚ) 0 0 1) (h : ℚ) 0 none hhne
      (fun t ht => by simp at ht)]
  exact ⟨_, rfl⟩

theorem to_svg_error_of_outbounds (n : NodeSVG) (w h : Int) (gc ib : Bool)
    (hc : w < 10 ∨ w > 10000 ∨ h < 10 ∨ h > 10000) :
    to_svg n w h gc ib = .error .dimensionError := by
  unfold to_svg
  rw [if_pos hc]

/-- C1: the claim says every gradient id referenced by an edge line resolves
to a definition emitted by the definitions pass of the same render call.
The code violates it: `_recursively_get_svg_gradient_color_defs` recurses
into a child only inside the `if` that fires when a new gradient was just
emitted for that edge, so a same-colored edge (here blue-blue) cuts the
definitions pass off from the whole subtree below it, while the drawing
traversal still emits `url(#grad_blue_red)` for the deeper edge.  On the
tree blue → blue → red the traversal references `grad_blue_red` but the
definitions pass emits nothing. -/
theorem C1_gradient_reference_unresolved :
    referencedGradientIds blueBlueRedTree = ["grad_blue_red"] ∧
    (gradientDefs blueBlueRedTree []).2.1 = "" ∧
    (gradientDefs blueBlueRedTree []).2.2 = [] := by
  refine ⟨?_, ?_, ?_⟩
  · simp [blueBlueRedTree, referencedGradientIds, referencedGradientIdsList,
      edgeRefIds, gradientId_blue_red, blueStyle_color, redStyle_color,
      NodeSVG.style]
  · simp [blueBlueRedTree, gradientDefs, gradientDefsLoop,
      gradientId_blue_red, gradientId_blue_blue, blueStyle_color,
      redStyle_color, NodeSVG.style]
  · simp [blueBlueRedTree, gradientDefs, gradientDefsLoop,
      gradientId_blue_red, gradientId_blue_blue, blueStyle_color,
      redStyle_color, NodeSVG.style]

/-- C2 counterexample: on the tree red → blue → red the two edges carry the
same unordered color pair `{red, blue}` in opposite orientations, and the
definitions pass emits one `linearGradient` for each orientation — two
definitions for that unordered pair, not exactly one. -/
theorem C2_counterexample :
    (gradientDefs redBlueRedTree []).2.2 = ["grad_red_blue", "grad_blue_red"] ∧
    gradientId redStyle blueStyle = "grad_red_blue" ∧
    gradientId blueStyle redStyle = "grad_blue_red" ∧
    ("grad_red_blue" : String) ≠ "grad_blue_red" := by
  refine ⟨?_, rfl, rfl, by decide⟩
  simp [redBlueRedTree, gradientDefs, gradientDefsLoop, gradientId_red_blue,
    gradientId_blue_red, blueStyle_color, redStyle_color, NodeSVG.style]

/-- C2 amended: deduplication is keyed on the ordered gradient id
`grad_<parent>_<child>`, so within one render call the definitions block
contains at most one `linearGradient` per gradient id (the same unordered
pair may receive one definition per orientation, and a pair occurring only
inside a subtree skipped by the definitions pass may receive none). -/
theorem C2_at_most_one_def_per_gradient_id (n : NodeSVG) :
    ((gradientDefs n []).2.2).Nodup :=
  (gradientDefs_created n [] List.nodup_nil).1

/-- C3 counterexample: `"red@x@1"` passes the `^.+@[0-9]+$` format check
(`.+` absorbs `"red@x"`), its color chunk `red` is valid, and then
`int('x')` raises a `ValueError` that is none of the three advertised
kinds — parsing is not total over the three-kind taxonomy. -/
theorem C3_counterexample :
    parseStyle "red@x@1" = Except.error StyleError.intError ∧
    StyleError.intError ≠ StyleError.formatError ∧
    StyleError.intError ≠ StyleError.colorError ∧
    StyleError.intError ≠ StyleError.sizeError :=
  ⟨rfl, by decide, by decide, by decide⟩

/-- C3 amended: for every input, parsing returns a style or raises exactly
one of four `ValueError` kinds — the three of the claim plus the bare
`int()` conversion error on a non-numeric size chunk — and the checks run
in the order format, then color, then size. -/
theorem C3_error_taxonomy (r : String) :
    ((∃ st, parseStyle r = .ok st) ∨
      parseStyle r = .error .formatError ∨
      parseStyle r = .error .colorError ∨
      parseStyle r = .error .sizeError ∨
      parseStyle r = .error .intError) ∧
    (parseStyle r = .error .formatError ↔ formatOk r.data = false) ∧
    (parseStyle r = .error .colorError → formatOk r.data = true) ∧
    ((parseStyle r = .error .sizeError ∨ parseStyle r = .error .intError) →
      formatOk r.data = true ∧
        ∃ c0 c1 rest, chuncksOf r.data = c0 :: c1 :: rest ∧
          colorOk c0 = true) :=
  ⟨parseStyle_cases r, parseStyle_formatError_iff r,
    parseStyle_colorError_format r, parseStyle_late_error r⟩

/-- Witness for C3: on `"green@125"` (a `SizeError` input) the order
property is discharged at a concrete input. -/
theorem C3_error_taxonomy_witness :
    formatOk ("green@125".data) = true ∧
      ∃ c0 c1 rest, chuncksOf ("green@125".data) = c0 :: c1 :: rest ∧
        colorOk c0 = true :=
  (C3_error_taxonomy "green@125").2.2.2 (Or.inl rfl)

/-- C4: after the vertical pass, every node at depth `t` of a tree of total
depth `T` has `y = map_value(t, -0.5, T+0.5, 0, h)`; `y` is identical
across a depth, strictly increasing with depth, and strictly between `0`
and `h`. -/
theorem C4_y_layout (root : NodeSVG) (h : ℚ) (hh : 0 < h) :
    ∀ (t : Nat) (u : NodeSVG), Subnode (computeY root h 0 none) t u →
      u.y = map_value (t : ℚ) (-(1/2)) ((get_depth root 0 : ℚ) + 1/2) 0 h ∧
      0 < u.y ∧ u.y < h ∧
      ∀ (t' : Nat) (u' : NodeSVG), Subnode (computeY root h 0 none) t' u' →
        (t = t' → u.y = u'.y) ∧ (t < t' → u.y < u'.y) := by
  intro t u hsub
  have hok := yok_root root h
  have hform := yok_subnode h _ _ 0 t u hok hsub
  have hT0 : (0 : Int) ≤ get_depth root 0 := by simpa using get_depth_ge root 0
  have htT : (t : Int) ≤ get_depth root 0 := by
    have h2 := subnode_le_depth hsub
    rwa [get_depth_computeY root h 0 none 0] at h2
  have hsimp : ((0 + (t : Int) : Int) : ℚ) = (t : ℚ) := by push_cast; ring
  rw [hsimp] at hform
  have hclosed : u.y = ((t : ℚ) + 1/2) / ((get_depth root 0 : ℚ) + 1) * h := by
    rw [hform, map_value_y_form]
  refine ⟨hform, ?_, ?_, ?_⟩
  · rw [hclosed]
    exact y_formula_pos _ _ _ hh (by positivity) (by exact_mod_cast htT)
  · rw [hclosed]
    exact y_formula_lt _ _ _ hh (by positivity) (by exact_mod_cast htT)
  · intro t' u' hsub'
    have hform' := yok_subnode h _ _ 0 t' u' hok hsub'
    rw [show ((0 + (t' : Int) : Int) : ℚ) = (t' : ℚ) by push_cast; ring]
      at hform'
    have hclosed' : u'.y =
        ((t' : ℚ) + 1/2) / ((get_depth root 0 : ℚ) + 1) * h := by
      rw [hform', map_value_y_form]
    constructor
    · intro heq
      rw [hclosed, hclosed', heq]
    · intro hlt
      rw [hclosed, hclosed']
      exact y_formula_mono _ _ _ _ hh (by exact_mod_cast hT0)
        (by exact_mod_cast hlt)

/-- Witness for C4 at a concrete single-node tree and height 400. -/
theorem C4_y_layout_witness :
    (computeY blueLeaf 400 0 none).y =
        map_value ((0 : Nat) : ℚ) (-(1/2))
          ((get_depth blueLeaf 0 : ℚ) + 1/2) 0 400 ∧
      0 < (computeY blueLeaf 400 0 none).y ∧
      (computeY blueLeaf 400 0 none).y < 400 ∧
      ∀ (t' : Nat) (u' : NodeSVG), Subnode (computeY blueLeaf 400 0 none) t' u' →
        ((0 : Nat) = t' → (computeY blueLeaf 400 0 none).y = u'.y) ∧
        ((0 : Nat) < t' → (computeY blueLeaf 400 0 none).y < u'.y) :=
  C4_y_layout blueLeaf 400 (by norm_num) 0 (computeY blueLeaf 400 0 none)
    (Subnode.refl _)

/-- C7: `to_svg` raises `DimensionError` exactly when `width` or `height`
is outside `[10, 10000]` (the check precedes the layout passes and the
document construction, so nothing is produced), and in particular
`width = 5` raises it. -/
theorem C7_dimension_error :
    (∀ (n : NodeSVG) (w h : Int) (gc ib : Bool),
      to_svg n w h gc ib = Except.error RenderError.dimensionError ↔
        (w < 10 ∨ w > 10000 ∨ h < 10 ∨ h > 10000)) ∧
    (∀ (n : NodeSVG) (gc ib : Bool),
      to_svg n 5 400 gc ib = Except.error RenderError.dimensionError) := by
  constructor
  · intro n w h gc ib
    constructor
    · intro hdim
      by_contra hc
      push_neg at hc
      obtain ⟨out, hout⟩ := to_svg_ok_of_inbounds n w h gc ib (by omega)
        (by omega) (by omega) (by omega)
      rw [hout] at hdim
      exact absurd hdim (by simp)
    · intro hc
      exact to_svg_error_of_outbounds n w h gc ib hc
  · intro n gc ib
    exact to_svg_error_of_outbounds n 5 400 gc ib (by omega)

/-- C8 counterexample: the claim says a render call adds no attribute
beyond `x` and `y`; but the definitions pass stores `self.svg_gradient` on
every node it visits — already on a single default-styled leaf the render
state carries `svg_gradient = ''` afterwards, an attribute absent before. -/
theorem C8_counterexample :
    blueLeaf.svg_gradient = none ∧
    (to_svg_state blueLeaf 400 400 true).svg_gradient = some "" := by
  refine ⟨rfl, ?_⟩
  simp [blueLeaf, to_svg_state, computeX, computeXList, computeY,
    computeYList, gradientDefs, gradientDefsLoop, NodeSVG.svg_gradient,
    effTreeDepth, get_depth]

/-- C8 amended: a render call leaves `value`, `children` structure and
`style` of every node unchanged; the only instance fields it writes are
`x`, `y` and (when `gradient_color` is on) the `svg_gradient` attribute of
the nodes visited by the definitions pass. -/
theorem C8_render_state_effect (n : NodeSVG) (w h : Int) (gc : Bool) :
    skeleton (to_svg_state n w h gc) = skeleton n := by
  unfold to_svg_state
  cases gc with
  | false =>
    simp only [Bool.false_eq_true, if_false]
    rw [skeleton_computeY, skeleton_computeX]
  | true =>
    simp only [if_true]
    rw [skeleton_gradientDefs, skeleton_computeY, skeleton_computeX]

/-- C9: re-parsing the canonical string form of any successfully parsed
style token succeeds and yields a style with the same `color` and `size`
fields. -/
theorem C9_parse_roundtrip (r : String) (st : NodeStyle)
    (h : parseStyle r = .ok st) : parseStyle (styleStr st) = .ok st :=
  parseStyle_roundtrip_aux r st h

/-- Witness for C9 on the token `"green@12"`. -/
theorem C9_parse_roundtrip_witness :
    parseStyle (styleStr ⟨"green", 12⟩) = .ok ⟨"green", 12⟩ :=
  C9_parse_roundtrip "green@12" ⟨"green", 12⟩ rfl

/-- C10: the constructor stores an arbitrary `children` list without
checking its elements (a non-node value becomes a child), while
`add_child` on any node rejects the same non-node value with `TypeError`,
leaving the node unchanged. -/
theorem C10_constructor_unchecked_children :
    nodeSVGInit "n" (some [PyObjDyn.other "v"]) "blue@12" =
      .ok (.node "n" [PyObjDyn.other "v"] ⟨"blue", 12⟩ 0 0) ∧
    ∀ p : PyObjDyn, add_child p (PyObjDyn.other "v") =
      (some PyError.typeError, p) :=
  ⟨rfl, fun _ => rfl⟩
